import Mathlib

/-!
# SenseSystem `HashSorted.h`: sorted-array set algebra

A shallow embedding of `Source/SenseSystem/Private/HashSorted.h`.

* `TArray<T>` is a `List T`; `int32` indices are `Int` (the sentinel `INDEX_NONE` is `-1`),
  array sizes stay far below `2^31`, so no wrap-around is involved.
* The element type `T`, its `operator==` (`eqv`) and the sort predicate (`less`) are parameters.
* Engine operations that carry a range check (`operator[]`, `RemoveAt`, `Insert`, `Slice`)
  return `Option`; `none` is the failed check (an abort in checked builds, undefined behaviour
  otherwise), and a function that calls them returns `none` as soon as one fails.
* `MoveTemp` of an element whose slot is not read again before it is overwritten or erased
  is the element. `RemoveDuplicates_Sorted` reads a slot after it has moved out of it, so
  there the state that the move assignment of the element type leaves in its source is a
  parameter (`movedFrom`, `selfMove`).
* `Reserve` and the shrink flags do not change the contents and are left out.
* `FMemory::Memmove` with a byte count moves raw bytes; its effect on the array depends on
  `sizeof(T)` and is a parameter (`rawMove`) of the merge.
* The merge and difference loops are written with an explicit iteration budget; the callers
  pass a budget (`|A| + |B| + 2`) above the number of rounds of the source loop, which moves
  one of two indices by one on every round. The counted `for` loops of `ArrayHelpers`,
  `GetBoundAofB_P` and `RemoveDuplicates_Sorted` recurse on the number of indices left to
  visit, so they run exactly as many rounds as the source.
* `GetTypeHash` returns a natural number (a `uint32` in the source); only the order and the
  equality of hashes are used.
-/

namespace SenseSystem

/-! ## Engine primitives used by the header -/

/-- The engine constant `INDEX_NONE`. -/
def INDEX_NONE : Int := -1

/-- The type `FIntPoint` as used through the alias `BoundIdx`. -/
structure BoundIdx where
  X : Int
  Y : Int
deriving DecidableEq, Repr

/-- The call `TArray::Num()`. -/
def Num {T : Type} (A : List T) : Int := (A.length : Int)

/-- The call `TArray::IsValidIndex(Index)`. -/
def IsValidIndex {T : Type} (A : List T) (Index : Int) : Bool :=
  decide (0 ≤ Index) && decide (Index < Num A)

/-- Range-checked read `A[Index]`. -/
def getAt {T : Type} (A : List T) (Index : Int) : Option T :=
  if 0 ≤ Index then A[Index.toNat]? else none

/-- Range-checked write `A[Index] = v`. -/
def setAt {T : Type} (A : List T) (Index : Int) (v : T) : Option (List T) :=
  if IsValidIndex A Index then some (A.set Index.toNat v) else none

/-- The call `TArray::RemoveAt(Index, Count)`, with its check
`(Count >= 0) & (Index >= 0) & (Index + Count <= ArrayNum)`. -/
def RemoveAt {T : Type} (A : List T) (Index Count : Int) : Option (List T) :=
  if 0 ≤ Count ∧ 0 ≤ Index ∧ Index + Count ≤ Num A then
    some (A.take Index.toNat ++ A.drop (Index + Count).toNat)
  else none

/-- The call `TArray::Insert(const TArray& Items, Index)`, with its check
`(Index >= 0) & (Index <= ArrayNum)`. -/
def InsertArray {T : Type} (A B : List T) (Index : Int) : Option (List T) :=
  if 0 ≤ Index ∧ Index ≤ Num A then
    some (A.take Index.toNat ++ B ++ A.drop Index.toNat)
  else none

/-- The call `TArrayView::Slice(Index, InNum)`. -/
def Slice {T : Type} (A : List T) (Index InNum : Int) : Option (List T) :=
  if 0 ≤ Index ∧ 0 ≤ InNum ∧ Index + InNum ≤ Num A then
    some ((A.drop Index.toNat).take InNum.toNat)
  else none

/-- The loop of `Algo::LowerBound` (the same loop is spelled out in the header's
`FindInsertID_HashType`): `Size` is halved on every round. -/
def LowerBoundLoop {T V : Type} (lt : T → V → Bool) (A : List T) (v : V) :
    Nat → Nat → Nat → Nat
  | 0, Start, _ => Start
  | fuel + 1, Start, Size =>
    if 0 < Size then
      let LeftoverSize := Size % 2
      let Size2 := Size / 2
      let CheckIndex := Start + Size2
      let StartIfLess := CheckIndex + LeftoverSize
      match A[CheckIndex]? with
      | some CheckValue =>
        LowerBoundLoop lt A v fuel (if lt CheckValue v then StartIfLess else Start) Size2
      | none => Start
    else Start

/-- The call `Algo::LowerBound(A, v, lt)`. -/
def LowerBound {T V : Type} (lt : T → V → Bool) (A : List T) (v : V) : Nat :=
  LowerBoundLoop lt A v A.length 0 A.length

/-- The call `Algo::BinarySearch(A, v, pred)` for a predicate object with the two overloads
`pred(elem, value)` (`lt`) and `pred(value, elem)` (`gt`). -/
def BinarySearchP {T V : Type} (lt : T → V → Bool) (gt : V → T → Bool) (A : List T) (v : V) :
    Int :=
  let CheckIndex := LowerBound lt A v
  match A[CheckIndex]? with
  | some CheckValue => if !gt v CheckValue then (CheckIndex : Int) else INDEX_NONE
  | none => INDEX_NONE

/-- The call `Algo::BinarySearch(A, v, SortPredicate)`. -/
def BinarySearch {T : Type} (less : T → T → Bool) (A : List T) (v : T) : Int :=
  BinarySearchP less less A v

/-- The call `Algo::IsSorted(A, SortPredicate)`: no element is less than its predecessor. -/
def IsSorted {T : Type} (less : T → T → Bool) : List T → Bool
  | [] => true
  | [_] => true
  | a :: b :: rest => !less b a && IsSorted less (b :: rest)

/-! ## `namespace ArraySorted` -/

/-- The function `BoundCount`. -/
def BoundCount (Bound : BoundIdx) : Int := (Bound.Y - Bound.X) + 1

/-- The function `IsValidBound`. -/
def IsValidBound (Bound : BoundIdx) (ArrayNum : Int) : Bool :=
  decide (BoundCount Bound > 0) && decide (Bound.X < ArrayNum) && decide (Bound.Y < ArrayNum)

/-- First loop of `GetBoundAofB_P`: `for (i = 0; i < B.Num(); i++)`, leaving with `break` at the
first `B[i]` that `Algo::BinarySearch` finds in `A`. Returns `(i, OutA.X)`; `n` counts the
elements of `B` not yet visited. -/
def GetBound_First {T : Type} (less : T → T → Bool) (A B : List T) : Nat → Nat → Nat × Int
  | 0, i => (i, INDEX_NONE)
  | n + 1, i =>
    match B[i]? with
    | some b =>
      let X := BinarySearch less A b
      if X ≠ INDEX_NONE then (i, X) else GetBound_First less A B n (i + 1)
    | none => (i, INDEX_NONE)

/-- Second loop of `GetBoundAofB_P`: `for (j = B.Num() - 1; j > i; j--)`, returning
`(OutA.Y, j)` at the first hit; `none` when the loop runs out. The argument is `j + 1`. -/
def GetBound_Last {T : Type} (less : T → T → Bool) (A B : List T) (i : Nat) :
    Nat → Option (Int × Nat)
  | 0 => none
  | j + 1 =>
    if i < j then
      match B[j]? with
      | some b =>
        let Y := BinarySearch less A b
        if Y ≠ INDEX_NONE then some (Y, j) else GetBound_Last less A B i j
      | none => none
    else none

/-- The function `GetBoundAofB_P`, returning `(OutA, OutB)`. -/
def GetBoundAofB_P {T : Type} (less : T → T → Bool) (A B : List T) : BoundIdx × BoundIdx :=
  let none2 : BoundIdx × BoundIdx := (⟨INDEX_NONE, INDEX_NONE⟩, ⟨INDEX_NONE, INDEX_NONE⟩)
  if Num A > 0 ∧ Num B > 0 then
    let (i, X) := GetBound_First less A B B.length 0
    if X ≠ INDEX_NONE then
      match GetBound_Last less A B i B.length with
      | some (Y, j) => (⟨X, Y⟩, ⟨(i : Int), (j : Int)⟩)
      | none => none2
    else none2
  else none2

/-- The function `InsertUniqueSorted` (both overloads; a moved element is the element),
returning the array and the returned index. -/
def InsertUniqueSorted {T : Type} (less eqv : T → T → Bool) (A : List T) (InsertElem : T)
    (bOverride : Bool) : List T × Int :=
  let ID := LowerBound less A InsertElem
  match A[ID]? with
  | some x =>
    if eqv x InsertElem then
      if bOverride then (A.set ID InsertElem, (ID : Int)) else (A, (ID : Int))
    else (A.take ID ++ InsertElem :: A.drop ID, (ID : Int))
  | none => (A ++ [InsertElem], (ID : Int))

/-- The function `RemoveSorted`, returning the array and the returned flag. -/
def RemoveSorted {T : Type} (less : T → T → Bool) (A : List T) (Elem : T) :
    Option (List T × Bool) :=
  let ID := BinarySearch less A Elem
  if ID ≠ INDEX_NONE then
    (RemoveAt A ID 1).map (fun A2 => (A2, true))
  else some (A, false)

/-- The function `ContainsDuplicates_Sorted`. -/
def ContainsDuplicates_Sorted {T : Type} (eqv : T → T → Bool) : List T → Bool
  | [] => false
  | [_] => false
  | a :: b :: rest => eqv a b || ContainsDuplicates_Sorted eqv (b :: rest)

/-- Local variables of the general path of `Merge_SortedPredicate`. -/
structure MergeState (T : Type) where
  A : List T
  i : Int
  j : Int
  EndID : Int
  DuplicateCount : Int
  SeqA : Int

/-- One round of the `while (j >= 0)` loop of `Merge_SortedPredicate(A, const B&)`.
`rawMove buf dst src n` is the buffer after `FMemory::Memmove(data + dst, data + src, n)`,
a move of `n` bytes whose effect depends on `sizeof(T)`; it is a parameter. The debug
assertion `checkSlow(EndID >= BoundA.X)` is not part of the round. -/
def MergeStep {T : Type} (rawMove : List T → Int → Int → Int → List T)
    (less eqv : T → T → Bool) (B : List T) (BoundA : BoundIdx) (bOverride : Bool)
    (s : MergeState T) : Option (MergeState T) := do
  let bj ← getAt B s.j
  let isGreater ← (if s.i ≥ BoundA.X then (getAt s.A s.i).map (fun ai => less bj ai)
    else some false)
  let s1 ← (if isGreater then
      some { s with SeqA := s.SeqA + 1, i := s.i - 1 }
    else do
      let A1 := if s.SeqA > 0 then rawMove s.A s.EndID s.i s.SeqA else s.A
      let isEqual ← (if s.i ≥ BoundA.X then (getAt A1 s.i).map (fun ai => eqv ai bj)
        else some false)
      if isEqual then do
        let ai ← getAt A1 s.i
        let A2 ← setAt A1 s.EndID (if bOverride then bj else ai)
        some { A := A2, i := s.i - 1, j := s.j - 1, EndID := s.EndID - 1,
               DuplicateCount := s.DuplicateCount + 1, SeqA := 0 }
      else do
        let A2 ← setAt A1 s.EndID bj
        some { A := A2, i := s.i, j := s.j - 1, EndID := s.EndID - 1,
               DuplicateCount := s.DuplicateCount, SeqA := 0 })
  if s1.DuplicateCount > 0 then do
    let A3 ← RemoveAt s1.A BoundA.X s1.DuplicateCount
    some { s1 with A := A3 }
  else some s1

/-- The `while (j >= 0)` loop of `Merge_SortedPredicate(A, const B&)`. -/
def MergeLoop {T : Type} (rawMove : List T → Int → Int → Int → List T)
    (less eqv : T → T → Bool) (B : List T) (BoundA : BoundIdx) (bOverride : Bool) :
    Nat → MergeState T → Option (List T)
  | 0, _ => none
  | fuel + 1, s =>
    if s.j ≥ 0 then
      match MergeStep rawMove less eqv B BoundA bOverride s with
      | some s1 => MergeLoop rawMove less eqv B BoundA bOverride fuel s1
      | none => none
    else some s.A

/-- The function `Merge_SortedPredicate(TArray<T>& A, const TArray<T>& B, ...)`; the result is
the array `A` after the call. -/
def Merge_SortedPredicate {T : Type} (rawMove : List T → Int → Int → Int → List T)
    (less eqv : T → T → Bool) (A B : List T) (bOverride : Bool) : Option (List T) :=
  match B, B.getLast? with
  | b0 :: _, some bLast =>
    match A, A.getLast? with
    | a0 :: _, some aLast =>
      if B.length = 1 then
        some (InsertUniqueSorted less eqv A b0 bOverride).1
      else if less aLast b0 then
        some (A ++ B)
      else if less bLast a0 then
        some (B ++ A)
      else
        let (BoundA, BoundB) := GetBoundAofB_P less A B
        match InsertArray A B BoundA.Y with
        | some A1 =>
          let i := BoundA.Y - 1
          MergeLoop rawMove less eqv B BoundA bOverride (A.length + B.length + 2)
            { A := A1, i := i, j := BoundB.Y, EndID := i + Num B, DuplicateCount := 0, SeqA := 0 }
        | none => none
    | _, _ => some B
  | _, _ => some A

/-- Local variables of the two difference helpers (`ID` doubles as `j` of the linear one). -/
structure MinusState (T : Type) where
  A : List T
  i : Int
  j : Int
  r : Int
  BX : Int

/-- The loop of `ArrayMinusArray_Linear_SortedPredicate_Check`. -/
def MinusLinearLoop {T : Type} (less eqv : T → T → Bool) (B : List T) (Bound_A Bound_B : BoundIdx) :
    Nat → MinusState T → Option (MinusState T)
  | 0, _ => none
  | fuel + 1, s =>
    if s.i ≤ Bound_A.Y ∧ s.j ≤ Bound_B.Y then do
      let ai ← getAt s.A s.i
      let bj ← getAt B s.j
      if less ai bj then do
        let r := s.r + 1
        let A1 ← (if r ≠ s.i then setAt s.A r ai else some s.A)
        MinusLinearLoop less eqv B Bound_A Bound_B fuel { s with A := A1, r := r, i := s.i + 1 }
      else if eqv ai bj then
        MinusLinearLoop less eqv B Bound_A Bound_B fuel { s with i := s.i + 1, j := s.j + 1 }
      else
        MinusLinearLoop less eqv B Bound_A Bound_B fuel { s with j := s.j + 1 }
    else some s

/-- The function `ArrayMinusArray_Linear_SortedPredicate_Check`: the array seen through the
view after the call, and the returned `BoundIdx(r, i - r)`. -/
def ArrayMinusArray_Linear_SortedPredicate_Check {T : Type} (less eqv : T → T → Bool)
    (A B : List T) (Bound_A Bound_B : BoundIdx) : Option (List T × BoundIdx) := do
  let s ← MinusLinearLoop less eqv B Bound_A Bound_B (A.length + B.length + 2)
    { A := A, i := Bound_A.X, j := Bound_B.X, r := Bound_A.X - 1, BX := Bound_B.X }
  let r := s.r + 1
  some (s.A, ⟨r, s.i - r⟩)

/-- The loop of `ArrayMinusArray_Binary_SortedPredicate_Check`; `s.j` is `ID` and `s.BX` is the
local copy `Bound_B.X`. -/
def MinusBinaryLoop {T : Type} (less eqv : T → T → Bool) (B : List T) (Bound_A : BoundIdx)
    (Bound_B_Y : Int) : Nat → MinusState T → Option (MinusState T)
  | 0, _ => none
  | fuel + 1, s =>
    if s.i ≤ Bound_A.Y ∧ s.j ≤ Bound_B_Y ∧ s.BX ≤ Bound_B_Y then do
      let ai ← getAt s.A s.i
      let keep ← (if s.j = INDEX_NONE then some true
        else (getAt B s.j).map (fun b => !eqv ai b))
      let ID ← (if keep then do
          let AvA ← Slice B s.BX (Bound_B_Y - s.BX)
          let k := LowerBound less AvA ai
          match AvA[k]? with
          | some x => if eqv x ai then some ((k : Int) + s.BX) else some INDEX_NONE
          | none => some INDEX_NONE
        else some s.j)
      if ID ≠ INDEX_NONE then
        MinusBinaryLoop less eqv B Bound_A Bound_B_Y fuel
          { s with BX := ID, j := ID + 1, i := s.i + 1 }
      else do
        let r := s.r + 1
        let A1 ← setAt s.A r ai
        MinusBinaryLoop less eqv B Bound_A Bound_B_Y fuel
          { s with A := A1, r := r, j := ID, i := s.i + 1 }
    else some s

/-- The function `ArrayMinusArray_Binary_SortedPredicate_Check`. -/
def ArrayMinusArray_Binary_SortedPredicate_Check {T : Type} (less eqv : T → T → Bool)
    (A B : List T) (Bound_A Bound_B : BoundIdx) : Option (List T × BoundIdx) := do
  let s ← MinusBinaryLoop less eqv B Bound_A Bound_B.Y (A.length + B.length + 2)
    { A := A, i := Bound_A.X, j := Bound_B.X, r := Bound_A.X - 1, BX := Bound_B.X }
  let r := s.r + 1
  some (s.A, ⟨r, s.i - r⟩)

/-- The function `ArrayMinusArray_SortedPredicate`; the result is `A` after the call. -/
def ArrayMinusArray_SortedPredicate {T : Type} (less eqv : T → T → Bool) (A B : List T) :
    Option (List T) :=
  if Num A = 0 ∨ Num B = 0 then some A
  else
    let (Bound_A, Bound_B) := GetBoundAofB_P less A B
    if IsValidBound Bound_A (Num A) && IsValidBound Bound_B (Num B) then do
      let (A1, Rem) ← (if BoundCount Bound_A ≤ BoundCount Bound_B then
          ArrayMinusArray_Binary_SortedPredicate_Check less eqv A B Bound_A Bound_B
        else
          ArrayMinusArray_Linear_SortedPredicate_Check less eqv A B Bound_A Bound_B)
      if Rem.X < Num A1 ∧ Rem.Y ≠ INDEX_NONE then
        RemoveAt A1 Rem.X (Rem.Y + 1)
      else some A1
    else some A

/-! ## `namespace HashSorted` -/

/-- The predicate `TSortHashPredicate`: compare by `GetTypeHash`. -/
def TSortHashPredicate {T : Type} (GetTypeHash : T → Nat) (a b : T) : Bool :=
  decide (GetTypeHash a < GetTypeHash b)

/-- The function `HashSorted::Merge`. -/
def Merge {T : Type} (rawMove : List T → Int → Int → Int → List T) (GetTypeHash : T → Nat)
    (eqv : T → T → Bool) (A B : List T) (bOverride : Bool) : Option (List T) :=
  Merge_SortedPredicate rawMove (TSortHashPredicate GetTypeHash) eqv A B bOverride

/-- The function `HashSorted::ArrayMinusArray`. -/
def ArrayMinusArray {T : Type} (GetTypeHash : T → Nat) (eqv : T → T → Bool) (A B : List T) :
    Option (List T) :=
  ArrayMinusArray_SortedPredicate (TSortHashPredicate GetTypeHash) eqv A B

/-- The function `HashSorted::Remove`. -/
def Remove {T : Type} (GetTypeHash : T → Nat) (A : List T) (Elem : T) : Option (List T × Bool) :=
  RemoveSorted (TSortHashPredicate GetTypeHash) A Elem

/-- The function `HashSorted::InsertUnique`. -/
def InsertUnique {T : Type} (GetTypeHash : T → Nat) (eqv : T → T → Bool) (A : List T)
    (Insert : T) (bOverride : Bool) : List T × Int :=
  InsertUniqueSorted (TSortHashPredicate GetTypeHash) eqv A Insert bOverride

/-- The constant `MAX_int32`. -/
def MAX_int32 : Int := 2147483647

/-- The predicate object `TSortTypeHashPredicate`, overload `(const T& A, const uint32 Hash)`. -/
def TSortTypeHashPredicate_elem_hash {T : Type} (GetTypeHash : T → Nat) (A : T) (Hash : Nat) :
    Bool :=
  decide (GetTypeHash A < Hash)

/-- The predicate object `TSortTypeHashPredicate`, overload `(const uint32 Hash, const T& A)`. -/
def TSortTypeHashPredicate_hash_elem {T : Type} (GetTypeHash : T → Nat) (Hash : Nat) (A : T) :
    Bool :=
  decide (Hash < GetTypeHash A)

/-- The function `HashSorted::FindInsertID_InBound`. -/
def FindInsertID_InBound {T : Type} (GetTypeHash : T → Nat) (A : List T) (FindElement : T)
    (StartIdx EndNum : Int) : Option Int :=
  let EndNum2 := if EndNum = MAX_int32 then Num A else EndNum
  (Slice A StartIdx (EndNum2 - StartIdx)).map (fun ArrayView =>
    (LowerBound (TSortHashPredicate GetTypeHash) ArrayView FindElement : Int) + StartIdx)

/-- The function `HashSorted::BinarySearch_InBound`. -/
def BinarySearch_InBound {T : Type} (GetTypeHash : T → Nat) (A : List T) (FindElement : T)
    (StartIdx EndNum : Int) : Option Int :=
  let EndNum2 := if EndNum = MAX_int32 then Num A else EndNum
  (Slice A StartIdx (EndNum2 - StartIdx)).map (fun ArrayView =>
    BinarySearch (TSortHashPredicate GetTypeHash) ArrayView FindElement + StartIdx)

/-- The function `HashSorted::BinarySearch_HashType`. -/
def BinarySearch_HashType {T : Type} (GetTypeHash : T → Nat) (A : List T) (Hash : Nat) : Int :=
  BinarySearchP (TSortTypeHashPredicate_elem_hash GetTypeHash)
    (TSortTypeHashPredicate_hash_elem GetTypeHash) A Hash

/-- The function `HashSorted::Contains_HashType`: `false` for an empty array, a direct
comparison for a single element, `Algo::BinarySearch` otherwise. -/
def Contains_HashType {T : Type} (GetTypeHash : T → Nat) (A : List T) (Hash : Nat) : Bool :=
  match A with
  | [] => false
  | [a] => decide (GetTypeHash a = Hash)
  | _ => decide (INDEX_NONE ≠ BinarySearchP (TSortTypeHashPredicate_elem_hash GetTypeHash)
      (TSortTypeHashPredicate_hash_elem GetTypeHash) A Hash)

/-- The function `HashSorted::Remove_HashType`, returning the array and the returned index. -/
def Remove_HashType {T : Type} (GetTypeHash : T → Nat) (A : List T) (Hash : Nat) :
    Option (List T × Int) :=
  let ID := BinarySearchP (TSortTypeHashPredicate_elem_hash GetTypeHash)
    (TSortTypeHashPredicate_hash_elem GetTypeHash) A Hash
  if ID ≠ INDEX_NONE then
    (RemoveAt A ID 1).map (fun A2 => (A2, ID))
  else some (A, ID)

/-! ## `namespace ArrayHelpers` and the duplicate removal of `ArraySorted` -/

/-- The call `TArray::Swap(First, Second)`, with its check that both indices are valid. -/
def Swap {T : Type} (A : List T) (First Second : Int) : Option (List T) := do
  let a ← getAt A First
  let b ← getAt A Second
  let A1 ← setAt A First b
  setAt A1 Second a

/-- The loop of `GetValidBounds`, `for (i = 0; i < A.Num(); i++)` with its `break`; the first
argument counts the indices not yet visited. -/
def GetValidBounds_Loop {T : Type} (Predicate : T → Bool) (A : List T) :
    Nat → Nat → BoundIdx → Option BoundIdx
  | 0, _, Out => some Out
  | n + 1, i, Out => do
    let X ← (if Out.X = INDEX_NONE then
        (getAt A i).map (fun a => if Predicate a then (i : Int) else Out.X)
      else some Out.X)
    let Y ← (if Out.Y = INDEX_NONE then
        (getAt A (Num A - i - 1)).map (fun a => if Predicate a then Num A - i else Out.Y)
      else some Out.Y)
    if Y ≠ INDEX_NONE ∧ X ≠ INDEX_NONE then some ⟨X, Y⟩
    else GetValidBounds_Loop Predicate A n (i + 1) ⟨X, Y⟩

/-- The function `ArrayHelpers::GetValidBounds`. -/
def GetValidBounds {T : Type} (Predicate : T → Bool) (A : List T) : Option BoundIdx :=
  GetValidBounds_Loop Predicate A A.length 0 ⟨INDEX_NONE, INDEX_NONE⟩

/-- The loop of `Filter_BreakSort`, `for (i = Arr.Num() - 1; i > INDEX_NONE; i--)`; the first
argument is `i + 1`. -/
def Filter_BreakSort_Loop {T : Type} (Predicate : T → Bool) :
    Nat → Int → List T → Option (List T × Int)
  | 0, RemID, Arr => some (Arr, RemID)
  | i + 1, RemID, Arr => do
    let ai ← getAt Arr i
    if Predicate ai then do
      let Arr1 ← Swap Arr i (RemID - 1)
      Filter_BreakSort_Loop Predicate i (RemID - 1) Arr1
    else Filter_BreakSort_Loop Predicate i RemID Arr

/-- The function `ArrayHelpers::Filter_BreakSort`, returning the array and the returned flag. -/
def Filter_BreakSort {T : Type} (Predicate : T → Bool) (Arr : List T) :
    Option (List T × Bool) := do
  let (Arr1, RemID) ← Filter_BreakSort_Loop Predicate Arr.length (Num Arr) Arr
  if RemID < Num Arr1 then
    (RemoveAt Arr1 RemID (Num Arr1 - RemID)).map (fun A2 => (A2, true))
  else some (Arr1, false)

/-- The loop of `Filter_Sorted_V2`, `for (i = 0; i < A.Num(); i++)`; the first argument counts
the indices not yet visited. -/
def Filter_Sorted_V2_Loop {T : Type} (Predicate : T → Bool) :
    Nat → Nat → Int → List T → Option (List T × Int)
  | 0, _, r, A => some (A, r)
  | n + 1, i, r, A => do
    let ai ← getAt A i
    if !Predicate ai then do
      let A1 ← setAt A (r + 1) ai
      Filter_Sorted_V2_Loop Predicate n (i + 1) (r + 1) A1
    else Filter_Sorted_V2_Loop Predicate n (i + 1) r A

/-- The function `ArrayHelpers::Filter_Sorted_V2`, returning the array and the returned flag. -/
def Filter_Sorted_V2 {T : Type} (Predicate : T → Bool) (A : List T) :
    Option (List T × Bool) := do
  let (A1, r0) ← Filter_Sorted_V2_Loop Predicate A.length 0 (-1) A
  let r := r0 + 1
  if r < Num A1 then
    (RemoveAt A1 r (Num A1 - r)).map (fun A2 => (A2, true))
  else some (A1, false)

/-- The move assignment `A[Dst] = MoveTemp(A[Src])` of one slot of an array to another, with
the range checks of the two `operator[]`. Slot `Dst` receives the value of slot `Src`; slot
`Src` is left in the moved-from state of the element type, `movedFrom d s` for a destination
that held `d` and a source that held `s`. When `Dst = Src` the element is move-assigned to
itself and is left as `selfMove s`. -/
def MoveAssign {T : Type} (movedFrom : T → T → T) (selfMove : T → T) (A : List T)
    (Dst Src : Int) : Option (List T) := do
  let d ← getAt A Dst
  let s ← getAt A Src
  if Dst = Src then setAt A Dst (selfMove s)
  else do
    let A0 ← setAt A Dst s
    setAt A0 Src (movedFrom d s)

/-- The loop of `RemoveDuplicates_Sorted`, `for (i = 1; i < A.Num(); i++)`; the first argument
counts the indices not yet visited. The test of a round reads `A[i - 1]`, the slot that the
round before has moved from when it kept its element in a lower slot. -/
def RemoveDuplicates_Loop {T : Type} (movedFrom : T → T → T) (selfMove : T → T)
    (eqv : T → T → Bool) :
    Nat → Nat → Int → List T → Option (List T × Int)
  | 0, _, r, A => some (A, r)
  | n + 1, i, r, A => do
    let ai ← getAt A i
    let ap ← getAt A ((i : Int) - 1)
    if !eqv ai ap then do
      let A1 ← MoveAssign movedFrom selfMove A (r + 1) i
      RemoveDuplicates_Loop movedFrom selfMove eqv n (i + 1) (r + 1) A1
    else RemoveDuplicates_Loop movedFrom selfMove eqv n (i + 1) r A

/-- The function `ArraySorted::RemoveDuplicates_Sorted`, returning the array and the returned
flag; `movedFrom` and `selfMove` are the move assignment of the element type, as in
`MoveAssign`. -/
def RemoveDuplicates_Sorted {T : Type} (movedFrom : T → T → T) (selfMove : T → T)
    (eqv : T → T → Bool) (A : List T) : Option (List T × Bool) := do
  let (A1, r0) ← RemoveDuplicates_Loop movedFrom selfMove eqv (A.length - 1) 1 0 A
  let r := r0 + 1
  if r > 0 ∧ r < Num A1 then
    (RemoveAt A1 r (Num A1 - r)).map (fun A2 => (A2, true))
  else some (A1, false)

/-- The elements of a sequence that do not follow a value-equal element, after the head
`prev`: what is left when all but the first of each run of equal adjacent elements are taken
out (the wording of the specification for `RemoveAdjacentDuplicates`). -/
def dropRepeats {T : Type} (eqv : T → T → Bool) (prev : T) : List T → List T
  | [] => []
  | x :: xs => if eqv x prev then dropRepeats eqv x xs else x :: dropRepeats eqv x xs

/-- The first element of each run of adjacent value-equal elements, in order. -/
def firstOfEachRun {T : Type} (eqv : T → T → Bool) : List T → List T
  | [] => []
  | a :: xs => a :: dropRepeats eqv a xs

/-! ## The move-aware overload of the merge -/

/-- One round of the `while (j >= 0)` loop of `Merge_SortedPredicate(A, TArray<T>&& B)`; the
field `SeqA` is not used by this overload. The debug assertion `checkSlow(EndID >= BoundA.X)`
is not part of the round. -/
def MergeMoveStep {T : Type} (less eqv : T → T → Bool) (B : List T) (BoundA : BoundIdx)
    (bOverride : Bool) (s : MergeState T) : Option (MergeState T) := do
  let bj ← getAt B s.j
  let isEqual ← (if s.i ≥ BoundA.X then (getAt s.A s.i).map (fun ai => eqv ai bj)
    else some false)
  if isEqual then do
    let ai ← getAt s.A s.i
    let A2 ← setAt s.A s.EndID (if bOverride then bj else ai)
    some { s with A := A2, i := s.i - 1, j := s.j - 1, EndID := s.EndID - 1,
                  DuplicateCount := s.DuplicateCount + 1 }
  else do
    let isGreater ← (if s.i ≥ BoundA.X then (getAt s.A s.i).map (fun ai => less bj ai)
      else some false)
    if isGreater then do
      let ai ← getAt s.A s.i
      let A2 ← setAt s.A s.EndID ai
      some { s with A := A2, i := s.i - 1, EndID := s.EndID - 1 }
    else do
      let A2 ← setAt s.A s.EndID bj
      some { s with A := A2, j := s.j - 1, EndID := s.EndID - 1 }

/-- The `while (j >= 0)` loop of `Merge_SortedPredicate(A, TArray<T>&& B)`, returning the
state at the exit of the loop. -/
def MergeMoveLoop {T : Type} (less eqv : T → T → Bool) (B : List T) (BoundA : BoundIdx)
    (bOverride : Bool) : Nat → MergeState T → Option (MergeState T)
  | 0, _ => none
  | fuel + 1, s =>
    if s.j ≥ 0 then
      match MergeMoveStep less eqv B BoundA bOverride s with
      | some s1 => MergeMoveLoop less eqv B BoundA bOverride fuel s1
      | none => none
    else some s

/-- The function `Merge_SortedPredicate(TArray<T>& A, TArray<T>&& B, ...)`; the result is the
array `A` after the call. The named parameter `B` is passed to `A.Insert(B, BoundA.Y)` as an
lvalue, so `B` is copied there and read afterwards. -/
def Merge_SortedPredicate_Move {T : Type} (less eqv : T → T → Bool) (A B : List T)
    (bOverride : Bool) : Option (List T) :=
  match B, B.getLast? with
  | b0 :: _, some bLast =>
    match A, A.getLast? with
    | a0 :: _, some aLast =>
      if B.length = 1 then
        some (InsertUniqueSorted less eqv A b0 bOverride).1
      else if less aLast b0 then
        some (A ++ B)
      else if less bLast a0 then
        some (B ++ A)
      else
        let (BoundA, _) := GetBoundAofB_P less A B
        match InsertArray A B BoundA.Y with
        | some A1 =>
          let i := BoundA.Y - 1
          match MergeMoveLoop less eqv B BoundA bOverride (A.length + B.length + 2)
              { A := A1, i := i, j := Num B - 1, EndID := i + Num B, DuplicateCount := 0,
                SeqA := 0 } with
          | some s =>
            if s.DuplicateCount > 0 then RemoveAt s.A BoundA.X s.DuplicateCount
            else some s.A
          | none => none
        | none => none
    | _, _ => some B
  | _, _ => some A

/-! ## Orders and concrete element types used in the statements -/

/-- A strict weak order given as a Boolean predicate: irreflexive, transitive, and
incomparability (neither less than the other) is transitive. -/
structure StrictWeakOrder {T : Type} (less : T → T → Bool) : Prop where
  irrefl : ∀ a, less a a = false
  trans : ∀ a b c, less a b = true → less b c = true → less a c = true
  incomp_trans : ∀ a b c, less a b = false → less b a = false → less b c = false →
    less c b = false → less a c = false ∧ less c a = false

/-- Hash order on naturals whose hash is their value (the concrete scenarios of the
specification). -/
def natLess : Nat → Nat → Bool := TSortHashPredicate (fun n => n)

/-- Value equality on naturals. -/
def natEq (a b : Nat) : Bool := decide (a = b)

/-- Hash order on elements `(hash, payload)`: only the hash is compared. -/
def pairLess : Nat × Nat → Nat × Nat → Bool := TSortHashPredicate Prod.fst

/-- Value equality on elements `(hash, payload)`: both fields are compared, so two elements
with one hash and different payloads are a key collision. -/
def pairEq (a b : Nat × Nat) : Bool := decide (a = b)

/-- Value equality on elements `(value, payload)` that looks at the value only: two
value-equal elements can carry different payloads. -/
def keyEq (a b : Nat × Nat) : Bool := decide (a.1 = b.1)

/-- A sort predicate supplied by a caller of the ordered-sequence layer: elements `(key, id)`
are ordered by `key` (a score or a distance, not a hash of the element). -/
def keyLess (a b : Nat × Nat) : Bool := decide (a.1 < b.1)

/-- Value equality on elements `(key, id)` that looks at the id only: it does not depend on
the sort key. -/
def idEq (a b : Nat × Nat) : Bool := decide (a.2 = b.2)

/-- Value equality of elements that are themselves arrays (a `TArray<int32>`, or an `FString`
as the array of its characters): same length and same items. -/
def arrayEq (a b : List Nat) : Bool := decide (a = b)

/-- The state in which the engine's move assignment of `TArray` (and of `FString`, which wraps
one) leaves its source: the buffer is handed over and the source is empty. -/
def arrayMovedFrom (_d _s : List Nat) : List Nat := []

/-- Move assignment of a `TArray` to itself: the engine tests `this != &Other` and does
nothing. -/
def arraySelfMove (s : List Nat) : List Nat := s

/-! ## Auxiliary facts -/

theorem StrictWeakOrder.asymm {T : Type} {less : T → T → Bool} (h : StrictWeakOrder less)
    {a b : T} (hab : less a b = true) : less b a = false := by
  cases hba : less b a with
  | false => rfl
  | true =>
    have := h.trans a b a hab hba
    rw [h.irrefl a] at this
    exact absurd this (by decide)

theorem StrictWeakOrder.negTrans {T : Type} {less : T → T → Bool} (h : StrictWeakOrder less)
    {a b c : T} (hab : less a b = false) (hbc : less b c = false) : less a c = false := by
  cases hac : less a c with
  | false => rfl
  | true =>
    have hba : less b a = false := by
      cases hba : less b a with
      | false => rfl
      | true => rw [h.trans b a c hba hac] at hbc; exact absurd hbc (by decide)
    have hcb : less c b = false := by
      cases hcb : less c b with
      | false => rfl
      | true => rw [h.trans a c b hac hcb] at hab; exact absurd hab (by decide)
    have := (h.incomp_trans a b c hab hba hbc hcb).1
    rw [hac] at this
    exact absurd this (by decide)

theorem IsSorted_iff_pairwise {T : Type} {less : T → T → Bool} (h : StrictWeakOrder less)
    (A : List T) : IsSorted less A = true ↔ A.Pairwise (fun a b => less b a = false) := by
  induction A with
  | nil => simp [IsSorted]
  | cons a t ih =>
    cases t with
    | nil => simp [IsSorted]
    | cons b rest =>
      rw [IsSorted, Bool.and_eq_true, ih, List.pairwise_cons (a := a)]
      constructor
      · rintro ⟨hba, hp⟩
        have hba2 : less b a = false := by simpa using hba
        refine ⟨?_, hp⟩
        intro x hx
        rcases List.mem_cons.1 hx with rfl | hx2
        · exact hba2
        · exact h.negTrans ((List.pairwise_cons.1 hp).1 x hx2) hba2
      · rintro ⟨hall, hp⟩
        exact ⟨by simp [hall b (List.mem_cons_self _ _)], hp⟩

theorem LowerBoundLoop_eq {T V : Type} (lt : T → V → Bool) (A : List T) (v : V) (n0 : Nat)
    (hlo : ∀ (k : Nat) (x : T), k < n0 → A[k]? = some x → lt x v = true)
    (hhi : ∀ (k : Nat) (x : T), n0 ≤ k → A[k]? = some x → lt x v = false) :
    ∀ fuel Start Size, Size ≤ fuel → Start + Size ≤ A.length → Start ≤ n0 →
      n0 ≤ Start + Size → LowerBoundLoop lt A v fuel Start Size = n0 := by
  intro fuel
  induction fuel with
  | zero =>
    intro Start Size h1 _ h3 h4
    simp only [LowerBoundLoop]
    omega
  | succ fuel ih =>
    intro Start Size h1 h2 h3 h4
    simp only [LowerBoundLoop]
    split
    · rename_i hpos
      have hc : Start + Size / 2 < A.length := by omega
      rw [List.getElem?_eq_getElem hc]
      simp only
      cases hlt : lt A[Start + Size / 2] v with
      | true =>
        have hn : Start + Size / 2 < n0 := by
          by_contra hcon
          have := hhi (Start + Size / 2) _ (by omega) (List.getElem?_eq_getElem hc)
          rw [hlt] at this
          exact absurd this (by decide)
        simp only [if_true]
        exact ih _ _ (by omega) (by omega) (by omega) (by omega)
      | false =>
        have hn : n0 ≤ Start + Size / 2 := by
          by_contra hcon
          have := hlo (Start + Size / 2) _ (by omega) (List.getElem?_eq_getElem hc)
          rw [hlt] at this
          exact absurd this (by decide)
        simp only [Bool.false_eq_true, if_false]
        exact ih _ _ (by omega) (by omega) (by omega) (by omega)
    · omega

theorem LowerBound_eq_findIdx {T V : Type} (lt : T → V → Bool) (A : List T) (v : V)
    (hmono : ∀ (i j : Nat) (x y : T), i ≤ j → A[i]? = some x → A[j]? = some y → lt y v = true →
      lt x v = true) :
    LowerBound lt A v = A.findIdx (fun x => !lt x v) := by
  unfold LowerBound
  apply LowerBoundLoop_eq
  · intro k x hk hx
    have hlen : k < A.length := Nat.lt_of_lt_of_le hk (List.findIdx_le_length _)
    have h1 := List.not_of_lt_findIdx hk
    rw [List.getElem?_eq_getElem hlen] at hx
    cases hx
    simpa using h1
  · intro k x hk hx
    have hlen : k < A.length := by
      by_contra hcon
      rw [List.getElem?_eq_none (by omega)] at hx
      exact absurd hx (by simp)
    have hn : A.findIdx (fun x => !lt x v) < A.length := by omega
    have h1 := List.findIdx_getElem (p := fun x => !lt x v) (w := hn)
    cases hxv : lt x v with
    | false => rfl
    | true =>
      have := hmono _ k _ x hk (List.getElem?_eq_getElem hn) hx hxv
      simp [this] at h1
  · exact Nat.le_refl _
  · simp
  · exact Nat.zero_le _
  · simpa using List.findIdx_le_length _

theorem sorted_getElem? {T : Type} {less : T → T → Bool} (h : StrictWeakOrder less)
    {A : List T} (hs : IsSorted less A = true) :
    ∀ (i j : Nat) (x y : T), i < j → A[i]? = some x → A[j]? = some y → less y x = false := by
  intro i j x y hij hx hy
  have hp := List.pairwise_iff_getElem.1 ((IsSorted_iff_pairwise h A).1 hs)
  have hj : j < A.length := by
    by_contra hcon
    rw [List.getElem?_eq_none (by omega)] at hy
    exact absurd hy (by simp)
  have hi : i < A.length := by omega
  rw [List.getElem?_eq_getElem hi] at hx
  rw [List.getElem?_eq_getElem hj] at hy
  cases hx
  cases hy
  exact hp i j hi hj hij

theorem sorted_mono {T : Type} {less : T → T → Bool} (h : StrictWeakOrder less)
    {A : List T} (hs : IsSorted less A = true) (e : T) :
    ∀ (i j : Nat) (x y : T), i ≤ j → A[i]? = some x → A[j]? = some y → less y e = true →
      less x e = true := by
  intro i j x y hij hx hy hye
  rcases Nat.eq_or_lt_of_le hij with rfl | hlt
  · rw [hx] at hy
    cases hy
    exact hye
  · have hyx := sorted_getElem? h hs i j x y hlt hx hy
    cases hxe : less x e with
    | true => rfl
    | false =>
      rw [h.negTrans hyx hxe] at hye
      exact absurd hye (by decide)

/-- Every element before the lower bound is less than `e`; none from it on is. -/
theorem LowerBound_sorted {T : Type} {less : T → T → Bool} (h : StrictWeakOrder less)
    {A : List T} (hs : IsSorted less A = true) (e : T) :
    LowerBound less A e ≤ A.length ∧
    (∀ (k : Nat) (x : T), k < LowerBound less A e → A[k]? = some x → less x e = true) ∧
    (∀ (k : Nat) (x : T), LowerBound less A e ≤ k → A[k]? = some x → less x e = false) := by
  have hmono := sorted_mono h hs e
  rw [LowerBound_eq_findIdx less A e hmono]
  refine ⟨List.findIdx_le_length _, ?_, ?_⟩
  · intro k x hk hx
    have hlen : k < A.length := Nat.lt_of_lt_of_le hk (List.findIdx_le_length _)
    have h1 := List.not_of_lt_findIdx hk
    rw [List.getElem?_eq_getElem hlen] at hx
    cases hx
    simpa using h1
  · intro k x hk hx
    have hlen : k < A.length := by
      by_contra hcon
      rw [List.getElem?_eq_none (by omega)] at hx
      exact absurd hx (by simp)
    have hn : A.findIdx (fun x => !less x e) < A.length := by omega
    have h1 := List.findIdx_getElem (p := fun x => !less x e) (w := hn)
    cases hxv : less x e with
    | false => rfl
    | true =>
      have := hmono _ k _ x hk (List.getElem?_eq_getElem hn) hx hxv
      simp [this] at h1

/-- Placing `e` between the first `p` elements and the elements from `n ≥ p` on keeps the
order, when `p` is the lower bound of `e`. -/
theorem sorted_splice {T : Type} {less : T → T → Bool} (h : StrictWeakOrder less)
    {A : List T} (hs : IsSorted less A = true) (e : T) (n : Nat)
    (hn : LowerBound less A e ≤ n) :
    IsSorted less (A.take (LowerBound less A e) ++ e :: A.drop n) = true := by
  obtain ⟨_, hlo, hhi⟩ := LowerBound_sorted h hs e
  have hp := (IsSorted_iff_pairwise h A).1 hs
  rw [IsSorted_iff_pairwise h, List.pairwise_append]
  refine ⟨hp.sublist (List.take_sublist _ _), ?_, ?_⟩
  · rw [List.pairwise_cons]
    refine ⟨?_, hp.sublist (List.drop_sublist _ _)⟩
    intro y hy
    obtain ⟨k, hk⟩ := List.mem_iff_getElem?.1 hy
    rw [List.getElem?_drop] at hk
    exact hhi (n + k) y (by omega) hk
  · intro x hx y hy
    obtain ⟨i, hi⟩ := List.mem_iff_getElem?.1 hx
    have hip : i < LowerBound less A e := by
      by_contra hcon
      rw [List.getElem?_take] at hi
      simp [hcon] at hi
    rw [List.getElem?_take_of_lt hip] at hi
    rcases List.mem_cons.1 hy with rfl | hy2
    · exact h.asymm (hlo i x hip hi)
    · obtain ⟨k, hk⟩ := List.mem_iff_getElem?.1 hy2
      rw [List.getElem?_drop] at hk
      exact sorted_getElem? h hs i (n + k) x y (by omega) hi hk

theorem TSortHashPredicate_swo {T : Type} (GetTypeHash : T → Nat) :
    StrictWeakOrder (TSortHashPredicate GetTypeHash) := by
  refine ⟨?_, ?_, ?_⟩
  · intro a
    simp [TSortHashPredicate]
  · intro a b c
    simp only [TSortHashPredicate, decide_eq_true_eq]
    omega
  · intro a b c
    simp only [TSortHashPredicate, decide_eq_false_iff_not]
    omega

/-- On a sorted array `Algo::BinarySearch` hits exactly when some element is key-equivalent
to `e`, and then returns the lower bound. -/
theorem BinarySearch_sorted {T : Type} {less : T → T → Bool} (h : StrictWeakOrder less)
    {A : List T} (hs : IsSorted less A = true) (e : T) :
    (BinarySearch less A e = INDEX_NONE ∧ ¬ ∃ x ∈ A, less x e = false ∧ less e x = false) ∨
    (BinarySearch less A e = (LowerBound less A e : Int) ∧
      ∃ c, A[LowerBound less A e]? = some c ∧ less c e = false ∧ less e c = false) := by
  obtain ⟨hle, hlo, hhi⟩ := LowerBound_sorted h hs e
  have key : ∀ x ∈ A, less x e = false → less e x = false →
      ∃ c, A[LowerBound less A e]? = some c ∧ less e c = false := by
    intro x hx hxe hex
    obtain ⟨k, hk⟩ := List.mem_iff_getElem?.1 hx
    have hklen : k < A.length := by
      by_contra hcon
      rw [List.getElem?_eq_none (by omega)] at hk
      exact absurd hk (by simp)
    have hpk : LowerBound less A e ≤ k := by
      by_contra hcon
      have := hlo k x (by omega) hk
      rw [hxe] at this
      exact absurd this (by decide)
    have hplen : LowerBound less A e < A.length := by omega
    refine ⟨A[LowerBound less A e], List.getElem?_eq_getElem hplen, ?_⟩
    rcases Nat.eq_or_lt_of_le hpk with heq | hlt
    · have hk2 := hk
      rw [← heq, List.getElem?_eq_getElem hplen] at hk2
      cases hk2
      exact hex
    · exact h.negTrans hex
        (sorted_getElem? h hs _ k _ x hlt (List.getElem?_eq_getElem hplen) hk)
  unfold BinarySearch BinarySearchP
  simp only
  cases hA : A[LowerBound less A e]? with
  | none =>
    left
    refine ⟨rfl, ?_⟩
    rintro ⟨x, hx, hxe, hex⟩
    obtain ⟨c, hc, _⟩ := key x hx hxe hex
    rw [hA] at hc
    exact absurd hc (by simp)
  | some c =>
    cases hec : less e c with
    | true =>
      left
      refine ⟨by simp [hec], ?_⟩
      rintro ⟨x, hx, hxe, hex⟩
      obtain ⟨c2, hc2, hec2⟩ := key x hx hxe hex
      rw [hA] at hc2
      cases hc2
      rw [hec] at hec2
      exact absurd hec2 (by decide)
    | false =>
      right
      exact ⟨by simp [hec], c, rfl, hhi _ c (Nat.le_refl _) hA, hec⟩

theorem RemoveAt_one {T : Type} (A : List T) (p : Nat) (hp : p < A.length) :
    RemoveAt A (p : Int) 1 = some (A.eraseIdx p) := by
  unfold RemoveAt Num
  have h1 : (0 : Int) ≤ 1 ∧ (0 : Int) ≤ (p : Int) ∧ (p : Int) + 1 ≤ (A.length : Int) := by
    omega
  rw [if_pos h1, List.eraseIdx_eq_take_drop_succ]
  have h2 : ((p : Int) + 1).toNat = p + 1 := by omega
  simp [h2]

/-- On a sorted array `RemoveSorted` either finds no key-equivalent element and leaves the
array alone, or erases the element at the lower bound, which is key-equivalent to `e`. -/
theorem RemoveSorted_sorted {T : Type} {less : T → T → Bool} (h : StrictWeakOrder less)
    {A : List T} (hs : IsSorted less A = true) (e : T) :
    (RemoveSorted less A e = some (A, false) ∧
      ¬ ∃ x ∈ A, less x e = false ∧ less e x = false) ∨
    (RemoveSorted less A e = some (A.eraseIdx (LowerBound less A e), true) ∧
      ∃ c, A[LowerBound less A e]? = some c ∧ less c e = false ∧ less e c = false) := by
  rcases BinarySearch_sorted h hs e with ⟨hb, hno⟩ | ⟨hb, c, hc, hce, hec⟩
  · left
    exact ⟨by simp [RemoveSorted, hb], hno⟩
  · right
    have hplen : LowerBound less A e < A.length := by
      by_contra hcon
      rw [List.getElem?_eq_none (by omega)] at hc
      exact absurd hc (by simp)
    have hne : (LowerBound less A e : Int) ≠ INDEX_NONE := by
      unfold INDEX_NONE
      omega
    exact ⟨by simp [RemoveSorted, hb, hne, RemoveAt_one A _ hplen], c, hc, hce, hec⟩


/-! ## Claims -/

/-- Claim C1 (defect on the general path of `Merge_SortedPredicate`): for the sorted,
duplicate-free arrays `[3,7]` and `[3,7,9]` (hash = value) the merge returns `[3,3,7,7]` for
either value of `bOverride` and whatever the raw byte move does: the value `9` of `B` is
missing and the length is `4`, not `2 + 3 - 2 = 3`. -/
theorem C1_Merge_general_path_misses_union
    (rawMove : List Nat → Int → Int → Int → List Nat) (bOverride : Bool) :
    IsSorted natLess [3, 7] = true ∧ IsSorted natLess [3, 7, 9] = true ∧
    ContainsDuplicates_Sorted natEq [3, 7] = false ∧
    ContainsDuplicates_Sorted natEq [3, 7, 9] = false ∧
    Merge_SortedPredicate rawMove natLess natEq [3, 7] [3, 7, 9] bOverride
      = some [3, 3, 7, 7] ∧
    9 ∉ [3, 3, 7, 7] ∧ [3, 3, 7, 7].length ≠ 2 + 3 - 2 := by
  refine ⟨by decide, by decide, by decide, by decide, ?_, by decide, by decide⟩
  cases bOverride <;> rfl

/-- Claim C2 (defect in `ArrayMinusArray_SortedPredicate`): for `A = [3,7,8,9]` and
`B = [3,5,7]` (hash = value, matches not adjacent in `B`) the difference returns `[7,9]`, which
still holds the value `7` of `B`. The inputs named in the claim do not complete: for
`[1,3,5] - [3,9]` the bounds come back as none, `IsValidBound` accepts them and the helper
reads `A[-1]`; for `[3,7] - [3,5,7]` the binary helper keeps `7` and the caller erases two
elements from index `1` of a two-element array; for `[1,3,5,7] - [3,7,9]` the caller erases
three elements from index `2` of a four-element array. -/
theorem C2_Subtract_leaves_a_match :
    IsSorted natLess [3, 7, 8, 9] = true ∧ IsSorted natLess [3, 5, 7] = true ∧
    ArrayMinusArray_SortedPredicate natLess natEq [3, 7, 8, 9] [3, 5, 7] = some [7, 9] ∧
    7 ∈ [7, 9] ∧ 7 ∈ [3, 5, 7] ∧
    GetBoundAofB_P natLess [1, 3, 5] [3, 9]
      = (⟨INDEX_NONE, INDEX_NONE⟩, ⟨INDEX_NONE, INDEX_NONE⟩) ∧
    IsValidBound ⟨INDEX_NONE, INDEX_NONE⟩ (Num [1, 3, 5]) = true ∧
    getAt [1, 3, 5] INDEX_NONE = none ∧
    ArrayMinusArray_SortedPredicate natLess natEq [1, 3, 5] [3, 9] = none ∧
    ArrayMinusArray_Binary_SortedPredicate_Check natLess natEq [3, 7] [3, 5, 7] ⟨0, 1⟩ ⟨0, 2⟩
      = some ([7, 7], ⟨1, 1⟩) ∧
    RemoveAt [7, 7] 1 (1 + 1) = none ∧
    ArrayMinusArray_SortedPredicate natLess natEq [3, 7] [3, 5, 7] = none ∧
    ArrayMinusArray_Linear_SortedPredicate_Check natLess natEq [1, 3, 5, 7] [3, 7, 9]
      ⟨1, 3⟩ ⟨0, 1⟩ = some ([1, 5, 5, 7], ⟨2, 2⟩) ∧
    RemoveAt [1, 5, 5, 7] 2 (2 + 1) = none ∧
    ArrayMinusArray_SortedPredicate natLess natEq [1, 3, 5, 7] [3, 7, 9] = none := by
  decide

/-- Claim C3 (defect in `ArrayMinusArray_SortedPredicate`): for `A = [1,3,5,7,11]` and
`B = [3,7,9]` the linear helper drops two elements and returns `Rem = (2, 2)`, the caller erases
`Rem.Y + 1 = 3` elements, and the result is `[1,5]`: the `11`, equal to no element of `B`, is
lost. -/
theorem C3_Subtract_erases_one_too_many :
    IsSorted natLess [1, 3, 5, 7, 11] = true ∧ IsSorted natLess [3, 7, 9] = true ∧
    GetBoundAofB_P natLess [1, 3, 5, 7, 11] [3, 7, 9] = (⟨1, 3⟩, ⟨0, 1⟩) ∧
    ArrayMinusArray_Linear_SortedPredicate_Check natLess natEq [1, 3, 5, 7, 11] [3, 7, 9]
      ⟨1, 3⟩ ⟨0, 1⟩ = some ([1, 5, 5, 7, 11], ⟨2, 2⟩) ∧
    ArrayMinusArray_SortedPredicate natLess natEq [1, 3, 5, 7, 11] [3, 7, 9] = some [1, 5] ∧
    11 ∉ [3, 7, 9] ∧ 11 ∉ [1, 5] := by
  decide

/-- Claim C4 (defect on the general path of `Merge_SortedPredicate`): for the sorted,
duplicate-free arrays `[3,7]` and `[3,7,9,11]` the merge returns `[3,7,3,7,7]`, which is not
sorted, for either value of `bOverride` and whatever the raw byte move does. -/
theorem C4_Merge_general_path_breaks_sortedness
    (rawMove : List Nat → Int → Int → Int → List Nat) (bOverride : Bool) :
    IsSorted natLess [3, 7] = true ∧ IsSorted natLess [3, 7, 9, 11] = true ∧
    ContainsDuplicates_Sorted natEq [3, 7] = false ∧
    ContainsDuplicates_Sorted natEq [3, 7, 9, 11] = false ∧
    Merge_SortedPredicate rawMove natLess natEq [3, 7] [3, 7, 9, 11] bOverride
      = some [3, 7, 3, 7, 7] ∧
    IsSorted natLess [3, 7, 3, 7, 7] = false := by
  refine ⟨by decide, by decide, by decide, by decide, ?_, by decide⟩
  cases bOverride <;> rfl

/-- Claim C5 (defect on the general path of `Merge_SortedPredicate`): for `A = [3,7]` and
`B = [3,7,9]`, neither with adjacent duplicates, `ContainsDuplicates_Sorted` is true on the
merged array. -/
theorem C5_Merge_general_path_leaves_duplicates
    (rawMove : List Nat → Int → Int → Int → List Nat) (bOverride : Bool) :
    ∃ R : List Nat,
      Merge_SortedPredicate rawMove natLess natEq [3, 7] [3, 7, 9] bOverride = some R ∧
      ContainsDuplicates_Sorted natEq [3, 7] = false ∧
      ContainsDuplicates_Sorted natEq [3, 7, 9] = false ∧
      ContainsDuplicates_Sorted natEq R = true := by
  refine ⟨[3, 3, 7, 7], ?_, by decide, by decide, by decide⟩
  cases bOverride <;> rfl

/-- Claim C6 (defect in `ArrayMinusArray_SortedPredicate`): with `A = [(2,1),(3,1),(4,0)]` and
`B = [(2,0),(2,1)]` (elements `(hash, payload)`, both sorted by hash) the first difference
returns `[(2,1),(4,0)]` and the second one, applied to that result, returns `[(2,1)]`. For
`A = [1,3,5,7,11]`, `B = [3,7,9]` (hash = value) the first difference returns `[1,5]` and the
second one does not complete: the bounds come back as none, `IsValidBound` accepts them and
the helper reads `A[-1]`. -/
theorem C6_Subtract_twice_differs :
    IsSorted pairLess [(2, 1), (3, 1), (4, 0)] = true ∧
    IsSorted pairLess [(2, 0), (2, 1)] = true ∧
    ArrayMinusArray_SortedPredicate pairLess pairEq [(2, 1), (3, 1), (4, 0)] [(2, 0), (2, 1)]
      = some [(2, 1), (4, 0)] ∧
    ArrayMinusArray_SortedPredicate pairLess pairEq [(2, 1), (4, 0)] [(2, 0), (2, 1)]
      = some [(2, 1)] ∧
    ArrayMinusArray_SortedPredicate natLess natEq [1, 3, 5, 7, 11] [3, 7, 9] = some [1, 5] ∧
    GetBoundAofB_P natLess [1, 5] [3, 7, 9]
      = (⟨INDEX_NONE, INDEX_NONE⟩, ⟨INDEX_NONE, INDEX_NONE⟩) ∧
    IsValidBound ⟨INDEX_NONE, INDEX_NONE⟩ (Num [1, 5]) = true ∧
    ArrayMinusArray_SortedPredicate natLess natEq [1, 5] [3, 7, 9] = none := by
  decide

/-- Claim C7: on a sorted array `InsertUniqueSorted` returns the lower bound `p` of `e` (the
first index whose element is not less than `e`, the length if there is none). If slot `p`
exists and holds an element value-equal to `e`, the array is left as it is (`bOverride`
false) or only slot `p` is overwritten with `e` (`bOverride` true); otherwise the result is
the array with `e` inserted at position `p`. -/
theorem C7_InsertUniqueSorted_lower_bound_result {T : Type} (less eqv : T → T → Bool)
    (hswo : StrictWeakOrder less) (A : List T) (e : T) (bOverride : Bool)
    (hs : IsSorted less A = true) :
    ∃ p : Nat, p = A.findIdx (fun x => !less x e) ∧ p ≤ A.length ∧
      (∀ (k : Nat) (x : T), k < p → A[k]? = some x → less x e = true) ∧
      (∀ x : T, A[p]? = some x → less x e = false) ∧
      (InsertUniqueSorted less eqv A e bOverride).2 = (p : Int) ∧
      (InsertUniqueSorted less eqv A e bOverride).1 =
        (match A[p]? with
         | some x =>
           if eqv x e = true then (if bOverride = true then A.set p e else A)
           else A.take p ++ e :: A.drop p
         | none => A.take p ++ e :: A.drop p) := by
  obtain ⟨hle, hlo, hhi⟩ := LowerBound_sorted hswo hs e
  have hp := LowerBound_eq_findIdx less A e (sorted_mono hswo hs e)
  refine ⟨LowerBound less A e, hp, hle, hlo, fun x hx => hhi _ x (Nat.le_refl _) hx, ?_, ?_⟩
  · unfold InsertUniqueSorted
    simp only
    cases hA : A[LowerBound less A e]? with
    | none => rfl
    | some x =>
      simp only
      by_cases hq : eqv x e = true
      · by_cases ho : bOverride = true <;> simp [hq, ho]
      · simp [hq]
  · unfold InsertUniqueSorted
    simp only
    cases hA : A[LowerBound less A e]? with
    | none =>
      have hlen : A.length ≤ LowerBound less A e := by
        by_contra hcon
        rw [List.getElem?_eq_getElem (by omega)] at hA
        exact absurd hA (by simp)
      simp [List.take_of_length_le hlen, List.drop_of_length_le hlen]
    | some x =>
      simp only
      by_cases hq : eqv x e = true
      · by_cases ho : bOverride = true <;> simp [hq, ho]
      · simp [hq]

/-- Witness for C7, the scenario of the specification: inserting `3` into `[1,3,5]` without
override returns index `1` and leaves the array unchanged. -/
theorem C7_InsertUniqueSorted_lower_bound_result_witness :
    StrictWeakOrder natLess ∧ IsSorted natLess [1, 3, 5] = true ∧
    InsertUniqueSorted natLess natEq [1, 3, 5] 3 false = ([1, 3, 5], 1) := by
  have hs : IsSorted natLess [1, 3, 5] = true := by decide
  obtain ⟨p, hp, -, -, -, h2, h1⟩ :=
    C7_InsertUniqueSorted_lower_bound_result natLess natEq (TSortHashPredicate_swo _)
      [1, 3, 5] 3 false hs
  have hp1 : p = 1 := by rw [hp]; decide
  subst hp1
  refine ⟨TSortHashPredicate_swo _, hs, Prod.ext ?_ ?_⟩
  · exact h1.trans (by decide)
  · exact h2.trans (by decide)

/-- Claim C8 (defect in `InsertUniqueSorted`): `A = [(1,0),(1,1)]` is sorted by hash and holds
no two value-equal elements; inserting `(1,1)`, which is the second element of its run of
equal hashes, puts a second copy in front of the run, for either value of `bOverride`: only
the element at the lower bound is compared with the inserted one. -/
theorem C8_InsertUniqueSorted_duplicates_inside_a_run (bOverride : Bool) :
    IsSorted pairLess [(1, 0), (1, 1)] = true ∧
    pairEq (1, 0) (1, 1) = false ∧
    InsertUniqueSorted pairLess pairEq [(1, 0), (1, 1)] (1, 1) bOverride
      = ([(1, 1), (1, 0), (1, 1)], 0) ∧
    List.count ((1 : Nat), (1 : Nat)) [(1, 1), (1, 0), (1, 1)] = 2 := by
  refine ⟨by decide, by decide, ?_, by decide⟩
  cases bOverride <;> rfl

/-- What `RemoveSorted` does on a sorted array: it always returns; the flag is true exactly
when some element is key-equivalent to `e` (neither orders before the other); the element
erased is then the first element key-equivalent to `e`, whatever its value; when the flag is
false the array is unchanged. -/
theorem RemoveSorted_erases_first_key_equivalent {T : Type} (less : T → T → Bool)
    (hswo : StrictWeakOrder less) (A : List T) (e : T) (hs : IsSorted less A = true) :
    ∃ (A2 : List T) (b : Bool), RemoveSorted less A e = some (A2, b) ∧
      (b = true ↔ ∃ x ∈ A, less x e = false ∧ less e x = false) ∧
      (b = true → ∃ (p : Nat) (x : T), A[p]? = some x ∧ less x e = false ∧
          less e x = false ∧
          (∀ (k : Nat) (y : T), k < p → A[k]? = some y → less y e = true) ∧
          A2 = A.eraseIdx p) ∧
      (b = false → A2 = A) := by
  obtain ⟨-, hlo, -⟩ := LowerBound_sorted hswo hs e
  rcases RemoveSorted_sorted hswo hs e with ⟨hr, hno⟩ | ⟨hr, c, hc, hce, hec⟩
  · refine ⟨A, false, hr, ?_, ?_, fun _ => rfl⟩
    · simp only [Bool.false_eq_true, false_iff]
      exact hno
    · intro hf
      exact absurd hf (by decide)
  · refine ⟨A.eraseIdx (LowerBound less A e), true, hr, ?_, ?_, ?_⟩
    · simp only [true_iff]
      exact ⟨c, List.mem_iff_getElem?.2 ⟨_, hc⟩, hce, hec⟩
    · intro _
      exact ⟨LowerBound less A e, c, hc, hce, hec, hlo, rfl⟩
    · intro hf
      exact absurd hf (by decide)

/-- Claim C9 (defect in `RemoveSorted`): elements are `(hash, payload)`, ordered by hash and
compared by both fields. In the sorted array `[(1,0),(2,0),(2,1),(2,2),(3,0)]` the call for
`(2,2)` returns true and erases `(2,0)`: the element asked for stays in the array and another
one is gone. In `[(1,0)]` the call for `(1,1)`, which is not in the array, returns true and
erases `(1,0)`. The slot that `Algo::BinarySearch` returns is erased without its value being
compared with the element. -/
theorem C9_RemoveSorted_erases_another_element :
    IsSorted pairLess [(1, 0), (2, 0), (2, 1), (2, 2), (3, 0)] = true ∧
    RemoveSorted pairLess [(1, 0), (2, 0), (2, 1), (2, 2), (3, 0)] (2, 2)
      = some ([(1, 0), (2, 1), (2, 2), (3, 0)], true) ∧
    pairEq (2, 0) (2, 2) = false ∧
    ((2 : Nat), (2 : Nat)) ∈ [(1, 0), (2, 1), (2, 2), (3, 0)] ∧
    RemoveSorted pairLess [(1, 0)] (1, 1) = some ([], true) ∧
    (∀ x ∈ [((1 : Nat), (0 : Nat))], pairEq x (1, 1) = false) := by
  decide

/-- Claim C10: for a strict weak order, a sorted array stays sorted after
`InsertUniqueSorted` (either value of `bOverride`) and after `RemoveSorted`, and
`RemoveSorted` always returns. -/
theorem C10_single_element_ops_keep_sorted {T : Type} (less eqv : T → T → Bool)
    (hswo : StrictWeakOrder less) (A : List T) (e : T) (bOverride : Bool)
    (hs : IsSorted less A = true) :
    IsSorted less (InsertUniqueSorted less eqv A e bOverride).1 = true ∧
    ∃ (A2 : List T) (b : Bool), RemoveSorted less A e = some (A2, b) ∧
      IsSorted less A2 = true := by
  constructor
  · obtain ⟨hle, -, -⟩ := LowerBound_sorted hswo hs e
    unfold InsertUniqueSorted
    simp only
    cases hA : A[LowerBound less A e]? with
    | none =>
      have hlen : A.length ≤ LowerBound less A e := by
        by_contra hcon
        rw [List.getElem?_eq_getElem (by omega)] at hA
        exact absurd hA (by simp)
      have := sorted_splice hswo hs e (LowerBound less A e) (Nat.le_refl _)
      simpa [List.take_of_length_le hlen, List.drop_of_length_le hlen] using this
    | some x =>
      have hplen : LowerBound less A e < A.length := by
        by_contra hcon
        rw [List.getElem?_eq_none (by omega)] at hA
        exact absurd hA (by simp)
      simp only
      by_cases hq : eqv x e = true
      · by_cases ho : bOverride = true
        · simp only [hq, ho, if_true]
          rw [List.set_eq_take_append_cons_drop, if_pos hplen]
          exact sorted_splice hswo hs e _ (Nat.le_succ _)
        · simp only [hq, ho, if_true]
          simpa using hs
      · simp only [hq]
        exact sorted_splice hswo hs e _ (Nat.le_refl _)
  · rcases RemoveSorted_sorted hswo hs e with ⟨hr, -⟩ | ⟨hr, -⟩
    · exact ⟨A, false, hr, hs⟩
    · refine ⟨_, true, hr, ?_⟩
      rw [IsSorted_iff_pairwise hswo]
      exact ((IsSorted_iff_pairwise hswo A).1 hs).sublist (List.eraseIdx_sublist _ _)

/-- Witness for C10: inserting `4` into, and removing `3` from, the sorted array `[1,3,5]`. -/
theorem C10_single_element_ops_keep_sorted_witness :
    StrictWeakOrder natLess ∧ IsSorted natLess [1, 3, 5] = true ∧
    IsSorted natLess (InsertUniqueSorted natLess natEq [1, 3, 5] 4 true).1 = true ∧
    ∃ (A2 : List Nat) (b : Bool), RemoveSorted natLess [1, 3, 5] 4 = some (A2, b) ∧
      IsSorted natLess A2 = true :=
  ⟨TSortHashPredicate_swo _, by decide,
    C10_single_element_ops_keep_sorted natLess natEq (TSortHashPredicate_swo _)
      [1, 3, 5] 4 true (by decide)⟩

/-- Claim C11 (defect on the general path of `Merge_SortedPredicate`): elements are
`(value, payload)`, ordered and compared by the value alone. For `A = [(3,0),(7,0)]` and
`B = [(3,1),(7,1),(9,1)]` the merged array holds both copies of the shared values, whatever
the raw byte move does: without override `B`'s copies `(3,1)` and `(7,1)` are there next to
`A`'s, with override `A`'s copy `(7,0)` is still there and `(3,1)` is there twice. On the
single-element path (`A = [(5,0)]`, `B = [(5,1)]`) the policy is followed. -/
theorem C11_Merge_general_path_keeps_both_copies
    (rawMove : List (Nat × Nat) → Int → Int → Int → List (Nat × Nat)) :
    IsSorted pairLess [(3, 0), (7, 0)] = true ∧
    IsSorted pairLess [(3, 1), (7, 1), (9, 1)] = true ∧
    ContainsDuplicates_Sorted keyEq [(3, 0), (7, 0)] = false ∧
    ContainsDuplicates_Sorted keyEq [(3, 1), (7, 1), (9, 1)] = false ∧
    Merge_SortedPredicate rawMove pairLess keyEq [(3, 0), (7, 0)] [(3, 1), (7, 1), (9, 1)] false
      = some [(3, 1), (3, 0), (7, 1), (7, 0)] ∧
    Merge_SortedPredicate rawMove pairLess keyEq [(3, 0), (7, 0)] [(3, 1), (7, 1), (9, 1)] true
      = some [(3, 1), (3, 1), (7, 1), (7, 0)] ∧
    Merge_SortedPredicate rawMove pairLess keyEq [(5, 0)] [(5, 1)] true = some [(5, 1)] ∧
    Merge_SortedPredicate rawMove pairLess keyEq [(5, 0)] [(5, 1)] false = some [(5, 0)] :=
  ⟨by decide, by decide, by decide, by decide, rfl, rfl, rfl, rfl⟩

/-- In a sorted array no element is greater than the last one. -/
theorem sorted_getLast {T : Type} {less : T → T → Bool} (h : StrictWeakOrder less)
    {A : List T} (hs : IsSorted less A = true) {aLast : T} (hl : A.getLast? = some aLast) :
    ∀ x ∈ A, less aLast x = false := by
  intro x hx
  have hp := (IsSorted_iff_pairwise h A).1 hs
  have hne : A ≠ [] := by
    intro hnil
    rw [hnil] at hl
    exact absurd hl (by simp)
  have hA : A = A.dropLast ++ [aLast] := by
    have h1 := List.dropLast_append_getLast hne
    rw [List.getLast?_eq_getLast A hne] at hl
    cases hl
    exact h1.symm
  rw [hA] at hp hx
  rcases List.mem_append.1 hx with hx1 | hx2
  · exact (List.pairwise_append.1 hp).2.2 x hx1 aLast (by simp)
  · have : x = aLast := by simpa using hx2
    rw [this]
    exact h.irrefl aLast

/-- In a sorted array no element is less than the first one. -/
theorem sorted_head {T : Type} {less : T → T → Bool} (h : StrictWeakOrder less)
    {a0 : T} {At : List T} (hs : IsSorted less (a0 :: At) = true) :
    ∀ x ∈ a0 :: At, less x a0 = false := by
  intro x hx
  have hp := (IsSorted_iff_pairwise h _).1 hs
  rcases List.mem_cons.1 hx with rfl | hx2
  · exact h.irrefl _
  · exact (List.pairwise_cons.1 hp).1 x hx2

/-- Claim C12 (amended): for a strict weak order and sorted `A` and `B`: if `A` is empty the
merge leaves `B`; if the last element of `A` is less than the first of `B` it leaves `A`
followed by `B`; if the last element of `B` is less than the first of `A` it leaves `B`
followed by `A`, unless `B` is a single element to which the first element of `A` is
value-equal; in that one case the merge goes through `InsertUniqueSorted` and leaves `A` as
it is (no override) or with its first element replaced by the element of `B` (override). -/
theorem C12_Merge_disjoint_fast_paths {T : Type}
    (rawMove : List T → Int → Int → Int → List T) (less eqv : T → T → Bool)
    (hswo : StrictWeakOrder less) (A B : List T) (bOverride : Bool)
    (hsA : IsSorted less A = true) (hsB : IsSorted less B = true) :
    (A = [] → Merge_SortedPredicate rawMove less eqv A B bOverride = some B) ∧
    (∀ aLast b0, A.getLast? = some aLast → B.head? = some b0 → less aLast b0 = true →
      Merge_SortedPredicate rawMove less eqv A B bOverride = some (A ++ B)) ∧
    (∀ bLast a0, B.getLast? = some bLast → A.head? = some a0 → less bLast a0 = true →
      (B.length = 1 → eqv a0 bLast = false) →
      Merge_SortedPredicate rawMove less eqv A B bOverride = some (B ++ A)) ∧
    (∀ b a0 At, B = [b] → A = a0 :: At → less b a0 = true → eqv a0 b = true →
      Merge_SortedPredicate rawMove less eqv A B bOverride
        = some (if bOverride = true then b :: At else a0 :: At)) := by
  have hfirst : ∀ (a0 : T) (At : List T) (b : T), IsSorted less (a0 :: At) = true →
      less b a0 = true → LowerBound less (a0 :: At) b = 0 := by
    intro a0 At b hs hlt
    rw [LowerBound_eq_findIdx less _ b (sorted_mono hswo hs b)]
    simp [List.findIdx_cons, hswo.asymm hlt]
  refine ⟨?_, ?_, ?_, ?_⟩
  · intro hA
    subst hA
    cases B with
    | nil => rfl
    | cons b0 Bt =>
      obtain ⟨bLast, hbl⟩ : ∃ bLast, (b0 :: Bt).getLast? = some bLast :=
        ⟨_, List.getLast?_eq_getLast _ (List.cons_ne_nil _ _)⟩
      unfold Merge_SortedPredicate
      rw [hbl]
  · intro aLast b0' hl hh hlt
    cases B with
    | nil => simp at hh
    | cons b0 Bt =>
      simp only [List.head?_cons, Option.some.injEq] at hh
      subst hh
      cases A with
      | nil => simp at hl
      | cons a0 At =>
        have hall : ∀ x ∈ a0 :: At, less x b0 = true := by
          intro x hx
          cases hxb : less x b0 with
          | true => rfl
          | false =>
            have := hswo.negTrans (sorted_getLast hswo hsA hl x hx) hxb
            rw [hlt] at this
            exact absurd this (by decide)
        obtain ⟨bLast, hbl⟩ : ∃ bLast, (b0 :: Bt).getLast? = some bLast :=
          ⟨_, List.getLast?_eq_getLast _ (List.cons_ne_nil _ _)⟩
        unfold Merge_SortedPredicate
        rw [hbl, hl]
        dsimp only
        by_cases h1 : (b0 :: Bt).length = 1
        · rw [if_pos h1]
          have hp : LowerBound less (a0 :: At) b0 = (a0 :: At).length := by
            rw [LowerBound_eq_findIdx less _ b0 (sorted_mono hswo hsA b0)]
            apply List.findIdx_eq_length_of_false
            intro x hx
            simp [hall x hx]
          have hBt : Bt = [] := by
            cases Bt with
            | nil => rfl
            | cons _ _ => simp at h1
          subst hBt
          unfold InsertUniqueSorted
          simp only [hp]
          rw [List.getElem?_eq_none (Nat.le_refl _)]
        · rw [if_neg h1, if_pos hlt]
  · intro bLast a0' hl hh hlt hne1
    cases B with
    | nil => simp at hl
    | cons b0 Bt =>
      cases A with
      | nil => simp at hh
      | cons a0 At =>
        simp only [List.head?_cons, Option.some.injEq] at hh
        subst hh
        obtain ⟨aLast, hal⟩ : ∃ aLast, (a0 :: At).getLast? = some aLast :=
          ⟨_, List.getLast?_eq_getLast _ (List.cons_ne_nil _ _)⟩
        have haLast_mem : aLast ∈ a0 :: At := List.mem_of_getLast?_eq_some hal
        have hbLast_mem : bLast ∈ b0 :: Bt := List.mem_of_getLast?_eq_some hl
        unfold Merge_SortedPredicate
        rw [hl, hal]
        dsimp only
        by_cases h1 : (b0 :: Bt).length = 1
        · rw [if_pos h1]
          have hne : eqv a0 bLast = false := hne1 h1
          have hBt : Bt = [] := by
            cases Bt with
            | nil => rfl
            | cons _ _ => simp at h1
          subst hBt
          have hbl : bLast = b0 := by simpa using hl.symm
          subst hbl
          unfold InsertUniqueSorted
          simp [hfirst a0 At bLast hsA hlt, hne]
        · have hnot : less aLast b0 = false := by
            cases hab : less aLast b0 with
            | false => rfl
            | true =>
              -- bLast < a0 and aLast is not below a0, so bLast < aLast < b0, against B sorted
              have h2 : less bLast aLast = true := by
                cases hba : less bLast aLast with
                | true => rfl
                | false =>
                  have := hswo.negTrans hba (sorted_head hswo hsA aLast haLast_mem)
                  rw [hlt] at this
                  exact absurd this (by decide)
              have h3 := hswo.trans _ _ _ h2 hab
              rw [sorted_head hswo hsB bLast hbLast_mem] at h3
              exact absurd h3 (by decide)
          rw [if_neg h1]
          simp [hnot, hlt]
  · intro b a0 At hB hA hlt heq
    subst hB
    subst hA
    obtain ⟨aLast, hal⟩ : ∃ aLast, (a0 :: At).getLast? = some aLast :=
      ⟨_, List.getLast?_eq_getLast _ (List.cons_ne_nil _ _)⟩
    unfold Merge_SortedPredicate
    rw [hal]
    simp only [List.getLast?_singleton, List.length_singleton, if_true]
    unfold InsertUniqueSorted
    cases bOverride <;> simp [hfirst a0 At b hsA hlt, heq]

/-- Witness for C12 (amended), the scenario of the specification: `[1,2,3]` merged with
`[4,5]`. -/
theorem C12_Merge_disjoint_fast_paths_witness :
    StrictWeakOrder natLess ∧
    IsSorted natLess [1, 2, 3] = true ∧ IsSorted natLess [4, 5] = true ∧
    Merge_SortedPredicate (fun A _ _ _ => A) natLess natEq [1, 2, 3] [4, 5] true
      = some [1, 2, 3, 4, 5] :=
  ⟨TSortHashPredicate_swo _, by decide, by decide,
    (C12_Merge_disjoint_fast_paths (fun A _ _ _ => A) natLess natEq (TSortHashPredicate_swo _)
      [1, 2, 3] [4, 5] true (by decide) (by decide)).2.1 3 4 rfl rfl (by decide)⟩

/-- Counterexample to C12 as stated, with a sort predicate of the caller: elements are
`(key, id)`, ordered by `key` (a strict weak order) and compared by `id`. `B = [(3,1)]` lies
entirely before `A = [(5,1)]`, but `B` has one element, so the merge goes through
`InsertUniqueSorted`, which finds `A[0]` value-equal to it: the result is `[(5,1)]` without
override and `[(3,1)]` with it, never `[(3,1),(5,1)]` (the raw byte move is not executed on
this path; it is taken to leave the buffer alone). -/
theorem C12_Merge_single_element_counterexample :
    StrictWeakOrder keyLess ∧
    IsSorted keyLess [(5, 1)] = true ∧ IsSorted keyLess [(3, 1)] = true ∧
    keyLess (3, 1) (5, 1) = true ∧ idEq (5, 1) (3, 1) = true ∧
    Merge_SortedPredicate (fun A _ _ _ => A) keyLess idEq [(5, 1)] [(3, 1)] false
      = some [(5, 1)] ∧
    Merge_SortedPredicate (fun A _ _ _ => A) keyLess idEq [(5, 1)] [(3, 1)] true
      = some [(3, 1)] :=
  ⟨TSortHashPredicate_swo Prod.fst, by decide, by decide, by decide, by decide, by decide,
    by decide⟩

/-- Claim C13 (defect in `BinarySearch_InBound`): in `A = [1,3,5,7]` (hash = value) the range
`[2, 4)` holds `5, 7`; searching `4` there fails in the view (`INDEX_NONE`), and the function
returns `INDEX_NONE + StartIdx = 1`, a valid index of `A` outside the range whose element has
another hash. A hit is reported correctly (`5` at index `2`), and so is a miss when the range
starts at `0`. -/
theorem C13_BinarySearch_InBound_shifts_the_sentinel :
    IsSorted natLess [1, 3, 5, 7] = true ∧
    Slice [1, 3, 5, 7] 2 (4 - 2) = some [5, 7] ∧
    BinarySearch (TSortHashPredicate (fun n : Nat => n)) [5, 7] 4 = INDEX_NONE ∧
    BinarySearch_InBound (fun n : Nat => n) [1, 3, 5, 7] 4 2 4 = some 1 ∧
    (1 : Int) ≠ INDEX_NONE ∧
    BinarySearch_InBound (fun n : Nat => n) [1, 3, 5, 7] 5 2 4 = some 2 ∧
    BinarySearch_InBound (fun n : Nat => n) [1, 3, 5, 7] 4 0 MAX_int32 = some INDEX_NONE := by
  decide

/-- The lower bound splits an array on which the predicate `lt · v` never turns true again
after it was false. -/
theorem LowerBound_partition {T V : Type} (lt : T → V → Bool) (A : List T) (v : V)
    (hmono : ∀ (i j : Nat) (x y : T), i ≤ j → A[i]? = some x → A[j]? = some y →
      lt y v = true → lt x v = true) :
    LowerBound lt A v ≤ A.length ∧
    (∀ (k : Nat) (x : T), k < LowerBound lt A v → A[k]? = some x → lt x v = true) ∧
    (∀ (k : Nat) (x : T), LowerBound lt A v ≤ k → A[k]? = some x → lt x v = false) := by
  rw [LowerBound_eq_findIdx lt A v hmono]
  refine ⟨List.findIdx_le_length _, ?_, ?_⟩
  · intro k x hk hx
    have hlen : k < A.length := Nat.lt_of_lt_of_le hk (List.findIdx_le_length _)
    have h1 := List.not_of_lt_findIdx hk
    rw [List.getElem?_eq_getElem hlen] at hx
    cases hx
    simpa using h1
  · intro k x hk hx
    have hlen : k < A.length := by
      by_contra hcon
      rw [List.getElem?_eq_none (by omega)] at hx
      exact absurd hx (by simp)
    have hn : A.findIdx (fun x => !lt x v) < A.length := by omega
    have h1 := List.findIdx_getElem (p := fun x => !lt x v) (w := hn)
    cases hxv : lt x v with
    | false => rfl
    | true =>
      have := hmono _ k _ x hk (List.getElem?_eq_getElem hn) hx hxv
      simp [this] at h1

/-- Along a hash-sorted array the hashes do not decrease. -/
theorem hash_sorted_le {T : Type} (GetTypeHash : T → Nat) {A : List T}
    (hs : IsSorted (TSortHashPredicate GetTypeHash) A = true) :
    ∀ (i j : Nat) (x y : T), i ≤ j → A[i]? = some x → A[j]? = some y →
      GetTypeHash x ≤ GetTypeHash y := by
  intro i j x y hij hx hy
  rcases Nat.eq_or_lt_of_le hij with rfl | hlt
  · rw [hx] at hy
    cases hy
    exact Nat.le_refl _
  · have := sorted_getElem? (TSortHashPredicate_swo GetTypeHash) hs i j x y hlt hx hy
    simp only [TSortHashPredicate, decide_eq_false_iff_not] at this
    omega

/-- On a hash-sorted array the search by raw hash misses exactly when no element has the
hash, and a hit is the index of an element with that hash. -/
theorem BinarySearch_HashType_sorted {T : Type} (GetTypeHash : T → Nat) {A : List T}
    (hs : IsSorted (TSortHashPredicate GetTypeHash) A = true) (Hash : Nat) :
    (BinarySearch_HashType GetTypeHash A Hash = INDEX_NONE ∧
      ¬ ∃ x ∈ A, GetTypeHash x = Hash) ∨
    (∃ (p : Nat) (c : T), BinarySearch_HashType GetTypeHash A Hash = (p : Int) ∧
      A[p]? = some c ∧ GetTypeHash c = Hash) := by
  have hmono : ∀ (i j : Nat) (x y : T), i ≤ j → A[i]? = some x → A[j]? = some y →
      TSortTypeHashPredicate_elem_hash GetTypeHash y Hash = true →
      TSortTypeHashPredicate_elem_hash GetTypeHash x Hash = true := by
    intro i j x y hij hx hy hlt
    have := hash_sorted_le GetTypeHash hs i j x y hij hx hy
    simp only [TSortTypeHashPredicate_elem_hash, decide_eq_true_eq] at hlt ⊢
    omega
  obtain ⟨hle, hlo, hhi⟩ :=
    LowerBound_partition (TSortTypeHashPredicate_elem_hash GetTypeHash) A Hash hmono
  unfold BinarySearch_HashType BinarySearchP
  simp only
  cases hA : A[LowerBound (TSortTypeHashPredicate_elem_hash GetTypeHash) A Hash]? with
  | none =>
    left
    refine ⟨rfl, ?_⟩
    rintro ⟨x, hx, hxh⟩
    obtain ⟨k, hk⟩ := List.mem_iff_getElem?.1 hx
    have hklen : k < A.length := by
      by_contra hcon
      rw [List.getElem?_eq_none (by omega)] at hk
      exact absurd hk (by simp)
    have hplen : A.length ≤ LowerBound (TSortTypeHashPredicate_elem_hash GetTypeHash) A Hash := by
      by_contra hcon
      rw [List.getElem?_eq_getElem (by omega)] at hA
      exact absurd hA (by simp)
    have := hlo k x (by omega) hk
    simp only [TSortTypeHashPredicate_elem_hash, decide_eq_true_eq] at this
    omega
  | some c =>
    have hc := hhi _ c (Nat.le_refl _) hA
    simp only [TSortTypeHashPredicate_elem_hash, decide_eq_false_iff_not] at hc
    by_cases hgt : Hash < GetTypeHash c
    · left
      refine ⟨by simp [TSortTypeHashPredicate_hash_elem, hgt], ?_⟩
      rintro ⟨x, hx, hxh⟩
      obtain ⟨k, hk⟩ := List.mem_iff_getElem?.1 hx
      have hpk : LowerBound (TSortTypeHashPredicate_elem_hash GetTypeHash) A Hash ≤ k := by
        by_contra hcon
        have := hlo k x (by omega) hk
        simp only [TSortTypeHashPredicate_elem_hash, decide_eq_true_eq] at this
        omega
      have := hash_sorted_le GetTypeHash hs _ k c x hpk hA hk
      omega
    · right
      exact ⟨_, c, by simp [TSortTypeHashPredicate_hash_elem, hgt], hA, by omega⟩

/-- Claim C14: on a hash-sorted array of any length `Contains_HashType` is true exactly when
some element has the hash, this agrees with `BinarySearch_HashType` differing from
`INDEX_NONE`, and an index returned by `BinarySearch_HashType` holds an element with that
hash. -/
theorem C14_Contains_HashType_decides_membership {T : Type} (GetTypeHash : T → Nat)
    (A : List T) (Hash : Nat) (hs : IsSorted (TSortHashPredicate GetTypeHash) A = true) :
    (Contains_HashType GetTypeHash A Hash = true ↔ ∃ x ∈ A, GetTypeHash x = Hash) ∧
    (Contains_HashType GetTypeHash A Hash = true ↔
      BinarySearch_HashType GetTypeHash A Hash ≠ INDEX_NONE) ∧
    (∀ i : Nat, BinarySearch_HashType GetTypeHash A Hash = (i : Int) →
      ∃ x, A[i]? = some x ∧ GetTypeHash x = Hash) := by
  have hbs := BinarySearch_HashType_sorted GetTypeHash hs Hash
  have hfind : BinarySearch_HashType GetTypeHash A Hash ≠ INDEX_NONE ↔
      ∃ x ∈ A, GetTypeHash x = Hash := by
    rcases hbs with ⟨hnone, hno⟩ | ⟨p, c, hp, hc, hh⟩
    · simp [hnone, hno]
    · constructor
      · intro _
        exact ⟨c, List.mem_iff_getElem?.2 ⟨p, hc⟩, hh⟩
      · intro _
        rw [hp]
        unfold INDEX_NONE
        omega
  have hcont : Contains_HashType GetTypeHash A Hash = true ↔
      BinarySearch_HashType GetTypeHash A Hash ≠ INDEX_NONE := by
    match A, hs, hfind with
    | [], _, hfind =>
      simp only [Contains_HashType, Bool.false_eq_true, false_iff, not_not] at hfind ⊢
      by_contra hcon
      obtain ⟨x, hx, _⟩ := hfind.1 hcon
      simp at hx
    | [a], _, hfind =>
      rw [hfind]
      simp [Contains_HashType]
    | a :: b :: rest, _, _ =>
      simp only [Contains_HashType, decide_eq_true_eq, BinarySearch_HashType]
      exact ⟨fun h1 h2 => h1 h2.symm, fun h1 h2 => h1 h2.symm⟩
  refine ⟨hcont.trans hfind, hcont, ?_⟩
  intro i hi
  rcases hbs with ⟨hnone, _⟩ | ⟨p, c, hp, hc, hh⟩
  · rw [hnone] at hi
    unfold INDEX_NONE at hi
    omega
  · rw [hp] at hi
    have : p = i := by omega
    subst this
    exact ⟨c, hc, hh⟩

/-- Witness for C14: looking up the hashes of `[1,3,5,7]` (hash = value). -/
theorem C14_Contains_HashType_decides_membership_witness :
    IsSorted (TSortHashPredicate (fun n : Nat => n)) [1, 3, 5, 7] = true ∧
    (Contains_HashType (fun n : Nat => n) [1, 3, 5, 7] 5 = true ↔
      ∃ x ∈ [1, 3, 5, 7], (fun n : Nat => n) x = 5) ∧
    (Contains_HashType (fun n : Nat => n) [1, 3, 5, 7] 5 = true ↔
      BinarySearch_HashType (fun n : Nat => n) [1, 3, 5, 7] 5 ≠ INDEX_NONE) ∧
    (∀ i : Nat, BinarySearch_HashType (fun n : Nat => n) [1, 3, 5, 7] 5 = (i : Int) →
      ∃ x, [1, 3, 5, 7][i]? = some x ∧ (fun n : Nat => n) x = 5) :=
  ⟨by decide,
    C14_Contains_HashType_decides_membership (fun n : Nat => n) [1, 3, 5, 7] 5 (by decide)⟩

/-- Claim C15: on a hash-sorted array, if some element has the hash, `Remove_HashType`
returns an index `i` whose element has that hash and leaves the array with exactly position
`i` erased (one element shorter, still hash-sorted); if no element has the hash it returns
`INDEX_NONE` and leaves the array unchanged. -/
theorem C15_Remove_HashType_erases_one_or_nothing {T : Type} (GetTypeHash : T → Nat)
    (A : List T) (Hash : Nat) (hs : IsSorted (TSortHashPredicate GetTypeHash) A = true) :
    ((∃ x ∈ A, GetTypeHash x = Hash) →
      ∃ (i : Nat) (x : T), A[i]? = some x ∧ GetTypeHash x = Hash ∧
        Remove_HashType GetTypeHash A Hash = some (A.eraseIdx i, (i : Int)) ∧
        (A.eraseIdx i).length + 1 = A.length ∧
        IsSorted (TSortHashPredicate GetTypeHash) (A.eraseIdx i) = true) ∧
    ((¬ ∃ x ∈ A, GetTypeHash x = Hash) →
      Remove_HashType GetTypeHash A Hash = some (A, INDEX_NONE)) := by
  have hbs := BinarySearch_HashType_sorted GetTypeHash hs Hash
  unfold BinarySearch_HashType at hbs
  constructor
  · intro hex
    rcases hbs with ⟨_, hno⟩ | ⟨p, c, hp, hc, hh⟩
    · exact absurd hex hno
    · have hplen : p < A.length := by
        by_contra hcon
        rw [List.getElem?_eq_none (by omega)] at hc
        exact absurd hc (by simp)
      have hne : (p : Int) ≠ INDEX_NONE := by
        unfold INDEX_NONE
        omega
      refine ⟨p, c, hc, hh, ?_, ?_, ?_⟩
      · simp [Remove_HashType, hp, hne, RemoveAt_one A p hplen]
      · rw [List.length_eraseIdx, if_pos hplen]
        omega
      · rw [IsSorted_iff_pairwise (TSortHashPredicate_swo GetTypeHash)]
        exact ((IsSorted_iff_pairwise (TSortHashPredicate_swo GetTypeHash) A).1 hs).sublist
          (List.eraseIdx_sublist _ _)
  · intro hno
    rcases hbs with ⟨hnone, _⟩ | ⟨p, c, _, hc, hh⟩
    · simp [Remove_HashType, hnone]
    · exact absurd ⟨c, List.mem_iff_getElem?.2 ⟨p, hc⟩, hh⟩ hno

/-- Witness for C15: removing hash `5` from `[1,3,5,7]` (hash = value). -/
theorem C15_Remove_HashType_erases_one_or_nothing_witness :
    IsSorted (TSortHashPredicate (fun n : Nat => n)) [1, 3, 5, 7] = true ∧
    (∃ x ∈ [1, 3, 5, 7], (fun n : Nat => n) x = 5) ∧
    ∃ (i : Nat) (x : Nat), [1, 3, 5, 7][i]? = some x ∧ (fun n : Nat => n) x = 5 ∧
      Remove_HashType (fun n : Nat => n) [1, 3, 5, 7] 5
        = some ([1, 3, 5, 7].eraseIdx i, (i : Int)) ∧
      ([1, 3, 5, 7].eraseIdx i).length + 1 = [1, 3, 5, 7].length ∧
      IsSorted (TSortHashPredicate (fun n : Nat => n)) ([1, 3, 5, 7].eraseIdx i) = true :=
  ⟨by decide, ⟨5, by decide, rfl⟩,
    (C15_Remove_HashType_erases_one_or_nothing (fun n : Nat => n) [1, 3, 5, 7] 5
      (by decide)).1 ⟨5, by decide, rfl⟩⟩

theorem getAt_natCast {T : Type} (A : List T) (k : Nat) : getAt A (k : Int) = A[k]? := by
  simp [getAt]

theorem getElem?_some_lt {T : Type} {A : List T} {k : Nat} {x : T} (h : A[k]? = some x) :
    k < A.length := by
  by_contra hcon
  rw [List.getElem?_eq_none (by omega)] at h
  exact absurd h (by simp)

theorem setAt_natCast {T : Type} (A : List T) (k : Nat) (v : T) (hk : k < A.length) :
    setAt A (k : Int) v = some (A.set k v) := by
  have : IsValidIndex A (k : Int) = true := by
    simp only [IsValidIndex, Num, Bool.and_eq_true, decide_eq_true_eq]
    omega
  simp [setAt, this]

/-- Removing everything from index `c` on leaves the first `c` elements. -/
theorem RemoveAt_tail {T : Type} (A : List T) (c : Nat) (hc : c ≤ A.length) :
    RemoveAt A (c : Int) (Num A - (c : Int)) = some (A.take c) := by
  unfold RemoveAt Num
  have h1 : (0 : Int) ≤ (A.length : Int) - (c : Int) ∧ (0 : Int) ≤ (c : Int) ∧
      (c : Int) + ((A.length : Int) - (c : Int)) ≤ (A.length : Int) := by
    omega
  rw [if_pos h1]
  have h2 : ((c : Int) + ((A.length : Int) - (c : Int))).toNat = A.length := by omega
  simp [h2]

theorem take_succ_set {T : Type} (A : List T) (c : Nat) (v : T) (hc : c < A.length) :
    (A.set c v).take (c + 1) = A.take c ++ [v] := by
  rw [List.take_succ, List.getElem?_set_self hc]
  have : (A.set c v).take c = A.take c := by
    apply List.ext_getElem?
    intro k
    rw [List.getElem?_take, List.getElem?_take]
    split
    · rw [List.getElem?_set_ne (by omega)]
    · rfl
  rw [this]
  rfl

theorem drop_succ_of_drop_eq {T : Type} {A B : List T} {i : Nat}
    (h : A.drop i = B.drop i) : A.drop (i + 1) = B.drop (i + 1) := by
  have := congrArg (List.drop 1) h
  simpa [List.drop_drop, Nat.add_comm] using this

theorem getElem?_of_drop_eq {T : Type} {A B : List T} {i : Nat}
    (h : A.drop i = B.drop i) : A[i]? = B[i]? := by
  have := congrArg (fun l => l[0]?) h
  simpa [List.getElem?_drop] using this

theorem dropRepeats_snoc {T : Type} (eqv : T → T → Bool) (y x : T) :
    ∀ (l : List T) (prev : T),
      dropRepeats eqv prev (l ++ [y] ++ [x])
        = dropRepeats eqv prev (l ++ [y]) ++ (if eqv x y then [] else [x]) := by
  intro l
  induction l with
  | nil =>
    intro prev
    simp only [List.nil_append, List.cons_append, dropRepeats]
    by_cases h1 : eqv y prev = true <;> by_cases h2 : eqv x y = true <;> simp [h1, h2]
  | cons z t ih =>
    intro prev
    simp only [List.cons_append, dropRepeats]
    have := ih z
    simp only [List.append_assoc, List.cons_append, List.nil_append] at this ⊢
    by_cases h1 : eqv z prev = true <;> simp [h1, this]

theorem firstOfEachRun_snoc {T : Type} (eqv : T → T → Bool) (l : List T) (y x : T) :
    firstOfEachRun eqv (l ++ [y] ++ [x])
      = firstOfEachRun eqv (l ++ [y]) ++ (if eqv x y then [] else [x]) := by
  cases l with
  | nil =>
    simp only [List.nil_append, List.cons_append, firstOfEachRun, dropRepeats]
  | cons a t =>
    have := dropRepeats_snoc eqv y x t a
    simp only [List.cons_append, firstOfEachRun, this]

theorem dropRepeats_length_le {T : Type} (eqv : T → T → Bool) :
    ∀ (l : List T) (prev : T), (dropRepeats eqv prev l).length ≤ l.length := by
  intro l
  induction l with
  | nil => intro prev; simp [dropRepeats]
  | cons x t ih =>
    intro prev
    simp only [dropRepeats]
    split
    · exact Nat.le_succ_of_le (ih x)
    · simpa using ih x

/-- Something is taken out exactly when two neighbours are value-equal. -/
theorem dropRepeats_length_lt {T : Type} (eqv : T → T → Bool)
    (hsymm : ∀ a b, eqv a b = true → eqv b a = true) :
    ∀ (l : List T) (prev : T),
      (dropRepeats eqv prev l).length < l.length ↔
        ContainsDuplicates_Sorted eqv (prev :: l) = true := by
  intro l
  induction l with
  | nil => intro prev; simp [dropRepeats, ContainsDuplicates_Sorted]
  | cons x t ih =>
    intro prev
    simp only [dropRepeats, ContainsDuplicates_Sorted, Bool.or_eq_true]
    by_cases h1 : eqv x prev = true
    · have h2 : eqv prev x = true := hsymm _ _ h1
      simp only [h1, if_true, h2, true_or, iff_true, List.length_cons]
      exact Nat.lt_succ_of_le (dropRepeats_length_le eqv t x)
    · have h2 : eqv prev x = false := by
        cases h : eqv prev x with
        | false => rfl
        | true => exact absurd (hsymm _ _ h) h1
      simp only [h1, if_false, h2, Bool.false_eq_true, false_or, List.length_cons,
        Nat.succ_lt_succ_iff]
      exact ih x

/-- After the repeats are taken out no two neighbours are value-equal. -/
theorem dropRepeats_no_duplicates {T : Type} (eqv : T → T → Bool)
    (hrefl : ∀ a, eqv a a = true)
    (hsymm : ∀ a b, eqv a b = true → eqv b a = true)
    (htrans : ∀ a b c, eqv a b = true → eqv b c = true → eqv a c = true) :
    ∀ (l : List T) (prev kept : T), eqv prev kept = true →
      ContainsDuplicates_Sorted eqv (kept :: dropRepeats eqv prev l) = false := by
  intro l
  induction l with
  | nil => intro prev kept _; simp [dropRepeats, ContainsDuplicates_Sorted]
  | cons x t ih =>
    intro prev kept hpk
    simp only [dropRepeats]
    by_cases h1 : eqv x prev = true
    · rw [if_pos h1]
      exact ih x kept (htrans _ _ _ h1 hpk)
    · rw [if_neg h1]
      have hkx : eqv kept x = false := by
        cases h : eqv kept x with
        | false => rfl
        | true => exact absurd (htrans _ _ _ (hsymm _ _ h) (hsymm _ _ hpk)) h1
      simp only [ContainsDuplicates_Sorted, hkx, Bool.false_or]
      exact ih x x (hrefl x)

/-- For an element type whose move assignment leaves the value in the source (and in an
element assigned to itself), `A[Dst] = MoveTemp(A[Src])` is the plain write of the value of
slot `Src` into slot `Dst`. -/
theorem MoveAssign_of_value_kept {T : Type} (movedFrom : T → T → T) (selfMove : T → T)
    (hmove : ∀ d s, movedFrom d s = s) (hself : ∀ s, selfMove s = s)
    (A : List T) (d s : Nat) (v : T) (hd : d < A.length) (hs : A[s]? = some v) :
    MoveAssign movedFrom selfMove A (d : Int) (s : Int) = some (A.set d v) := by
  have hsl : s < A.length := getElem?_some_lt hs
  unfold MoveAssign
  simp only [Option.bind_eq_bind, getAt_natCast, List.getElem?_eq_getElem hd, hs,
    Option.some_bind, hmove, hself]
  by_cases hds : d = s
  · subst hds
    simp only [if_true]
    exact setAt_natCast A d v hd
  · have hne : ¬ ((d : Int) = (s : Int)) := by omega
    rw [if_neg hne, setAt_natCast A d v hd, Option.some_bind,
      setAt_natCast _ s v (by simpa using hsl)]
    congr 1
    apply List.ext_getElem?
    intro k
    rw [List.getElem?_set]
    split
    · rename_i hk
      subst hk
      rw [List.getElem?_set, if_neg hds, hs]
      simp [hsl]
    · rfl

/-- The loop of `RemoveDuplicates_Sorted` at index `j + 1`, with the last survivor in slot
`r`, for an element type whose move assignment leaves the value in the source: it returns,
and the first `r + 1` slots then hold the first element of each run. -/
theorem RemoveDuplicates_Loop_spec {T : Type} (movedFrom : T → T → T) (selfMove : T → T)
    (hmove : ∀ d s, movedFrom d s = s) (hself : ∀ s, selfMove s = s)
    (eqv : T → T → Bool) (orig : List T) :
    ∀ (n j r : Nat) (A : List T), j + 1 + n = orig.length → A.length = orig.length → r ≤ j →
      A.take (r + 1) = firstOfEachRun eqv (orig.take (j + 1)) → A.drop j = orig.drop j →
      ∃ (A2 : List T) (r2 : Nat),
        RemoveDuplicates_Loop movedFrom selfMove eqv n (j + 1) (r : Int) A
          = some (A2, (r2 : Int)) ∧
        A2.length = orig.length ∧ r2 + 1 ≤ orig.length ∧
        A2.take (r2 + 1) = firstOfEachRun eqv orig := by
  intro n
  induction n with
  | zero =>
    intro j r A hj hlen hr htake _
    refine ⟨A, r, rfl, hlen, by omega, ?_⟩
    have : j + 1 = orig.length := by omega
    rw [htake, this, List.take_length]
  | succ n ih =>
    intro j r A hj hlen hr htake hdrop
    have hj1 : j + 1 < orig.length := by omega
    have hj0 : j < orig.length := by omega
    have hAj1 : A[j + 1]? = some orig[j + 1] := by
      rw [getElem?_of_drop_eq (drop_succ_of_drop_eq hdrop), List.getElem?_eq_getElem hj1]
    have hgi : getAt A ((j + 1 : Nat) : Int) = some orig[j + 1] := by
      rw [getAt_natCast, hAj1]
    have hcast : ((j + 1 : Nat) : Int) - 1 = (j : Int) := by omega
    have hgp : getAt A (((j + 1 : Nat) : Int) - 1) = some orig[j] := by
      rw [hcast, getAt_natCast, getElem?_of_drop_eq hdrop, List.getElem?_eq_getElem hj0]
    have htk1 : orig.take (j + 1) = orig.take j ++ [orig[j]] := by
      rw [List.take_succ, List.getElem?_eq_getElem hj0]
      rfl
    have htk2 : orig.take (j + 1 + 1) = orig.take j ++ [orig[j]] ++ [orig[j + 1]] := by
      rw [List.take_succ, List.getElem?_eq_getElem hj1, htk1]
      rfl
    simp only [RemoveDuplicates_Loop, Option.bind_eq_bind, hgi, hgp, Option.some_bind]
    by_cases he : eqv orig[j + 1] orig[j] = true
    · simp only [he, Bool.not_true, Bool.false_eq_true, if_false]
      apply ih (j + 1) r A (by omega) hlen (by omega) _ (drop_succ_of_drop_eq hdrop)
      rw [htk2, firstOfEachRun_snoc, ← htk1, ← htake]
      simp [he]
    · have he2 : eqv orig[j + 1] orig[j] = false := by simpa using he
      have hr1 : (r : Int) + 1 = ((r + 1 : Nat) : Int) := by omega
      simp only [he2, Bool.not_false, if_true, hr1,
        MoveAssign_of_value_kept movedFrom selfMove hmove hself A (r + 1) (j + 1)
          orig[j + 1] (by omega) hAj1, Option.some_bind]
      apply ih (j + 1) (r + 1) (A.set (r + 1) orig[j + 1]) (by omega) (by simpa using hlen)
        (by omega)
      · rw [take_succ_set A (r + 1) _ (by omega), htake, htk2, firstOfEachRun_snoc, ← htk1]
        simp [he2]
      · rw [← drop_succ_of_drop_eq hdrop]
        apply List.ext_getElem?
        intro k
        rw [List.getElem?_drop, List.getElem?_drop, List.getElem?_set]
        split
        · rename_i hk
          have hk0 : r + 1 = j + 1 := by omega
          rw [← hk, if_pos (by omega), hk0, hAj1]
        · rfl

/-- What `RemoveDuplicates_Sorted` does for an element type whose move assignment leaves the
value in the source (numbers, pointers, plain structures), when value equality is an
equivalence relation: it always returns; the array it leaves is the first element of each run
of adjacent value-equal elements, in order; `ContainsDuplicates_Sorted` is false on it; and
the flag is true exactly when `ContainsDuplicates_Sorted` is true on the original array. -/
theorem RemoveDuplicates_Sorted_of_value_kept {T : Type}
    (movedFrom : T → T → T) (selfMove : T → T)
    (hmove : ∀ d s, movedFrom d s = s) (hself : ∀ s, selfMove s = s)
    (eqv : T → T → Bool)
    (hrefl : ∀ a, eqv a a = true)
    (hsymm : ∀ a b, eqv a b = true → eqv b a = true)
    (htrans : ∀ a b c, eqv a b = true → eqv b c = true → eqv a c = true)
    (A : List T) :
    ∃ (R : List T) (b : Bool),
      RemoveDuplicates_Sorted movedFrom selfMove eqv A = some (R, b) ∧
      R = firstOfEachRun eqv A ∧
      ContainsDuplicates_Sorted eqv R = false ∧
      (b = true ↔ ContainsDuplicates_Sorted eqv A = true) := by
  cases A with
  | nil =>
    refine ⟨[], false, ?_, rfl, rfl, by simp [ContainsDuplicates_Sorted]⟩
    simp [RemoveDuplicates_Sorted, RemoveDuplicates_Loop, Num]
  | cons a xs =>
    obtain ⟨A2, r2, hloop, hlen, hr2, htake⟩ :=
      RemoveDuplicates_Loop_spec movedFrom selfMove hmove hself eqv (a :: xs) xs.length 0 0
        (a :: xs) (by simp; omega) rfl
        (Nat.le_refl _) (by simp [firstOfEachRun, dropRepeats]) rfl
    have hnodup : ContainsDuplicates_Sorted eqv (firstOfEachRun eqv (a :: xs)) = false :=
      dropRepeats_no_duplicates eqv hrefl hsymm htrans xs a a (hrefl a)
    have hr2len : r2 + 1 = (firstOfEachRun eqv (a :: xs)).length := by
      rw [← htake, List.length_take]
      omega
    have hflag : r2 + 1 < (a :: xs).length ↔
        ContainsDuplicates_Sorted eqv (a :: xs) = true := by
      rw [hr2len, ← dropRepeats_length_lt eqv hsymm xs a]
      simp [firstOfEachRun]
    have hn : (a :: xs).length - 1 = xs.length := by simp
    have h01 : ((0 + 1 : Nat) : Int) = 1 := by omega
    have h00 : ((0 : Nat) : Int) = 0 := by omega
    unfold RemoveDuplicates_Sorted
    rw [hn]
    have hloop2 : RemoveDuplicates_Loop movedFrom selfMove eqv xs.length 1 0 (a :: xs)
        = some (A2, (r2 : Int)) := by
      have := hloop
      simpa using this
    simp only [Option.bind_eq_bind, hloop2, Option.some_bind]
    have hcast : (r2 : Int) + 1 = ((r2 + 1 : Nat) : Int) := by omega
    by_cases hlt : r2 + 1 < (a :: xs).length
    · have hc : (r2 : Int) + 1 > 0 ∧ (r2 : Int) + 1 < Num A2 := by
        unfold Num
        omega
      rw [if_pos hc, hcast, RemoveAt_tail A2 (r2 + 1) (by omega)]
      exact ⟨_, true, rfl, htake, by rw [htake]; exact hnodup, by simpa using hflag.1 hlt⟩
    · have hc : ¬ ((r2 : Int) + 1 > 0 ∧ (r2 : Int) + 1 < Num A2) := by
        unfold Num
        omega
      rw [if_neg hc]
      have hA2 : A2 = firstOfEachRun eqv (a :: xs) := by
        have : r2 + 1 = A2.length := by omega
        rw [← htake, this, List.take_length]
      refine ⟨A2, false, rfl, hA2, by rw [hA2]; exact hnodup, ?_⟩
      simp only [Bool.false_eq_true, false_iff]
      exact fun h => hlt (hflag.2 h)

/-- Claim C16 (defect in `RemoveDuplicates_Sorted`): the loop tests `A[i] == A[i - 1]` after
`A[r] = MoveTemp(A[i])` of the round before has moved out of slot `i - 1`. For elements that
are arrays, whose move leaves the source empty, and the array `[[1],[1],[2],[2]]` the second
`[2]` is compared with the emptied slot and kept: the function leaves `[[1],[2],[2]]`, not
the first of each run `[[1],[2]]`, and `ContainsDuplicates_Sorted` is true on what it leaves.
On `[[1],[1],[2],[]]` the last element, the empty array, is compared with the emptied slot
and dropped although it starts a run of its own. With a move that leaves the value in the
source the same call leaves `[[1],[2]]`. -/
theorem C16_RemoveDuplicates_Sorted_compares_with_moved_from_slot :
    RemoveDuplicates_Sorted arrayMovedFrom arraySelfMove arrayEq [[1], [1], [2], [2]]
      = some ([[1], [2], [2]], true) ∧
    firstOfEachRun arrayEq [[1], [1], [2], [2]] = [[1], [2]] ∧
    ContainsDuplicates_Sorted arrayEq [[1], [2], [2]] = true ∧
    RemoveDuplicates_Sorted arrayMovedFrom arraySelfMove arrayEq [[1], [1], [2], []]
      = some ([[1], [2]], true) ∧
    firstOfEachRun arrayEq [[1], [1], [2], []] = [[1], [2], []] ∧
    RemoveDuplicates_Sorted (fun _ s => s) (fun s => s) arrayEq [[1], [1], [2], [2]]
      = some ([[1], [2]], true) := by
  decide

/-- The loop of `Filter_Sorted_V2` at index `i`, with `c = r + 1` survivors written so far:
it returns, and the first `r + 1` slots then hold the elements that the predicate rejects,
in their order. -/
theorem Filter_Sorted_V2_Loop_spec {T : Type} (P : T → Bool) (orig : List T) :
    ∀ (n i c : Nat) (A : List T), i + n = orig.length → A.length = orig.length → c ≤ i →
      A.take c = (orig.take i).filter (fun x => !P x) → A.drop i = orig.drop i →
      ∃ (A2 : List T) (c2 : Nat),
        Filter_Sorted_V2_Loop P n i ((c : Int) - 1) A = some (A2, (c2 : Int) - 1) ∧
        A2.length = orig.length ∧ c2 ≤ orig.length ∧
        A2.take c2 = orig.filter (fun x => !P x) := by
  intro n
  induction n with
  | zero =>
    intro i c A hi hlen hc htake _
    refine ⟨A, c, rfl, hlen, by omega, ?_⟩
    have : i = orig.length := by omega
    subst this
    simpa using htake
  | succ n ih =>
    intro i c A hi hlen hc htake hdrop
    have hilen : i < orig.length := by omega
    have hiA : i < A.length := by omega
    have hget : getAt A (i : Int) = some orig[i] := by
      rw [getAt_natCast, getElem?_of_drop_eq hdrop, List.getElem?_eq_getElem hilen]
    have htk : orig.take (i + 1) = orig.take i ++ [orig[i]] := by
      rw [List.take_succ, List.getElem?_eq_getElem hilen]
      rfl
    simp only [Filter_Sorted_V2_Loop, Option.bind_eq_bind, hget, Option.some_bind]
    by_cases hp : P orig[i] = true
    · simp only [hp, Bool.not_true, Bool.false_eq_true, if_false]
      apply ih (i + 1) c A (by omega) hlen (by omega) _ (drop_succ_of_drop_eq hdrop)
      rw [htk, List.filter_append, ← htake]
      simp [hp]
    · have hp2 : P orig[i] = false := by simpa using hp
      have hr : (c : Int) - 1 + 1 = (c : Int) := by omega
      have hr2 : (c : Int) = ((c + 1 : Nat) : Int) - 1 := by omega
      simp only [hp2, Bool.not_false, if_true, hr, setAt_natCast A c orig[i] (by omega),
        Option.some_bind]
      rw [hr2]
      apply ih (i + 1) (c + 1) (A.set c orig[i]) (by omega) (by simpa using hlen) (by omega)
      · rw [take_succ_set A c _ (by omega), htk, List.filter_append, ← htake]
        simp [hp2]
      · rw [List.drop_set_of_lt _ _ (by omega)]
        exact drop_succ_of_drop_eq hdrop

/-- The function `Filter_Sorted_V2` returns the elements that the predicate rejects, in their
order, and the flag tells whether the predicate accepted some element. -/
theorem Filter_Sorted_V2_spec {T : Type} (P : T → Bool) (S : List T) :
    ∃ (R : List T) (b : Bool), Filter_Sorted_V2 P S = some (R, b) ∧
      R = S.filter (fun x => !P x) ∧ (b = true ↔ ∃ x ∈ S, P x = true) := by
  obtain ⟨A2, c2, hloop, hlen, hc2, htake⟩ :=
    Filter_Sorted_V2_Loop_spec P S S.length 0 0 S (by omega) rfl (Nat.le_refl _)
      (by simp) rfl
  have h0 : ((0 : Nat) : Int) - 1 = -1 := by omega
  rw [h0] at hloop
  have hr : (c2 : Int) - 1 + 1 = (c2 : Int) := by omega
  have hc2len : c2 = (S.filter (fun x => !P x)).length := by
    rw [← htake, List.length_take]
    omega
  have hex : c2 < S.length ↔ ∃ x ∈ S, P x = true := by
    rw [hc2len, List.length_filter_lt_length_iff_exists]
    simp
  unfold Filter_Sorted_V2
  simp only [Option.bind_eq_bind, hloop, Option.some_bind, hr]
  by_cases hlt : c2 < S.length
  · have hlt2 : (c2 : Int) < Num A2 := by
      unfold Num
      omega
    rw [if_pos hlt2, RemoveAt_tail A2 c2 (by omega)]
    exact ⟨_, true, rfl, htake, by simpa using hex.1 hlt⟩
  · have hge : ¬ ((c2 : Int) < Num A2) := by
      unfold Num
      omega
    rw [if_neg hge]
    refine ⟨A2, false, rfl, ?_, ?_⟩
    · have : c2 = A2.length := by omega
      rw [← htake, this, List.take_length]
    · simp only [Bool.false_eq_true, false_iff]
      exact fun h => hlt (hex.2 h)

/-- Putting `x` at the place of an element and that element in front is a rearrangement. -/
theorem perm_cons_set {T : Type} (x : T) :
    ∀ (l : List T) (j : Nat) (y : T), l[j]? = some y → (y :: l.set j x).Perm (x :: l) := by
  intro l
  induction l with
  | nil =>
    intro j y h
    simp at h
  | cons z t ih =>
    intro j y h
    cases j with
    | zero =>
      simp only [List.getElem?_cons_zero, Option.some.injEq] at h
      subst h
      exact List.Perm.swap _ _ _
    | succ j =>
      simp only [List.getElem?_cons_succ] at h
      simp only [List.set_cons_succ]
      exact ((List.Perm.swap z y _).trans ((ih j y h).cons z)).trans (List.Perm.swap x z t)

/-- Exchanging two elements of an array is a rearrangement of it. -/
theorem perm_set_set {T : Type} :
    ∀ (l : List T) (i j : Nat) (a b : T), l[i]? = some a → l[j]? = some b →
      ((l.set i b).set j a).Perm l := by
  intro l
  induction l with
  | nil =>
    intro i j a b h
    simp at h
  | cons x xs ih =>
    intro i j a b hi hj
    cases i with
    | zero =>
      simp only [List.getElem?_cons_zero, Option.some.injEq] at hi
      subst hi
      cases j with
      | zero =>
        simp only [List.getElem?_cons_zero, Option.some.injEq] at hj
        subst hj
        simp
      | succ j =>
        simp only [List.getElem?_cons_succ] at hj
        simp only [List.set_cons_zero, List.set_cons_succ]
        exact perm_cons_set x xs j b hj
    | succ i =>
      simp only [List.getElem?_cons_succ] at hi
      cases j with
      | zero =>
        simp only [List.getElem?_cons_zero, Option.some.injEq] at hj
        subst hj
        simp only [List.set_cons_zero, List.set_cons_succ]
        exact perm_cons_set x xs i a hi
      | succ j =>
        simp only [List.getElem?_cons_succ] at hj
        simp only [List.set_cons_succ]
        exact (ih i j a b hi hj).cons x

theorem Swap_natCast {T : Type} (A : List T) (i j : Nat) (a b : T)
    (hi : A[i]? = some a) (hj : A[j]? = some b) :
    Swap A (i : Int) (j : Int) = some ((A.set i b).set j a) := by
  have hil := getElem?_some_lt hi
  have hjl := getElem?_some_lt hj
  simp only [Swap, Option.bind_eq_bind, getAt_natCast, hi, hj, Option.some_bind,
    setAt_natCast A i b hil]
  exact setAt_natCast _ j a (by simpa using hjl)

/-- The loop of `Filter_BreakSort` with `k` indices left to visit and `RemID = rem`: it
returns a rearrangement of the array in which the rejected elements fill the slots below the
final `RemID` and the accepted ones the slots from it on. -/
theorem Filter_BreakSort_Loop_spec {T : Type} (P : T → Bool) (orig : List T) :
    ∀ (k rem : Nat) (Arr : List T), Arr.Perm orig → k ≤ rem → rem ≤ Arr.length →
      (∀ (m : Nat) (x : T), k ≤ m → m < rem → Arr[m]? = some x → P x = false) →
      (∀ (m : Nat) (x : T), rem ≤ m → Arr[m]? = some x → P x = true) →
      ∃ (Arr2 : List T) (rem2 : Nat),
        Filter_BreakSort_Loop P k (rem : Int) Arr = some (Arr2, (rem2 : Int)) ∧
        Arr2.Perm orig ∧ rem2 ≤ Arr2.length ∧
        (∀ (m : Nat) (x : T), m < rem2 → Arr2[m]? = some x → P x = false) ∧
        (∀ (m : Nat) (x : T), rem2 ≤ m → Arr2[m]? = some x → P x = true) := by
  intro k
  induction k with
  | zero =>
    intro rem Arr hperm _ hrem hlo hhi
    exact ⟨Arr, rem, rfl, hperm, hrem, fun m x hm hx => hlo m x (Nat.zero_le _) hm hx, hhi⟩
  | succ k ih =>
    intro rem Arr hperm hk hrem hlo hhi
    have hklen : k < Arr.length := by omega
    have hget : getAt Arr (k : Int) = some Arr[k] := by
      rw [getAt_natCast, List.getElem?_eq_getElem hklen]
    have hcast : ((k + 1 : Nat) : Int) = (k : Int) + 1 := by omega
    simp only [Filter_BreakSort_Loop, Option.bind_eq_bind, hget, Option.some_bind]
    by_cases hp : P Arr[k] = true
    · -- the visited element is swapped with the last survivor
      have hr : (rem : Int) - 1 = ((rem - 1 : Nat) : Int) := by omega
      have hrlen : rem - 1 < Arr.length := by omega
      rw [if_pos hp, hr,
        Swap_natCast Arr k (rem - 1) Arr[k] Arr[rem - 1] (List.getElem?_eq_getElem hklen)
          (List.getElem?_eq_getElem hrlen)]
      simp only [Option.some_bind]
      apply ih (rem - 1) _
        ((perm_set_set Arr k (rem - 1) _ _ (List.getElem?_eq_getElem hklen)
          (List.getElem?_eq_getElem hrlen)).trans hperm) (by omega) (by simp; omega)
      · intro m x hkm hmr hx
        have hne : rem - 1 ≠ m := by omega
        rw [List.getElem?_set_ne hne] at hx
        by_cases hmk : k = m
        · subst hmk
          rw [List.getElem?_set_self hklen] at hx
          cases hx
          exact hlo (rem - 1) _ (by omega) (by omega) (List.getElem?_eq_getElem hrlen)
        · rw [List.getElem?_set_ne hmk] at hx
          exact hlo m x (by omega) (by omega) hx
      · intro m x hrm hx
        by_cases hmr : rem - 1 = m
        · subst hmr
          rw [List.getElem?_set_self (by simpa using hrlen)] at hx
          cases hx
          exact hp
        · rw [List.getElem?_set_ne hmr, List.getElem?_set_ne (by omega)] at hx
          exact hhi m x (by omega) hx
    · have hp2 : P Arr[k] = false := by simpa using hp
      simp only [hp2, Bool.false_eq_true, if_false]
      apply ih rem Arr hperm (by omega) hrem _ hhi
      intro m x hkm hmr hx
      by_cases hmk : m = k
      · subst hmk
        rw [List.getElem?_eq_getElem hklen] at hx
        cases hx
        exact hp2
      · exact hlo m x (by omega) hmr hx

/-- The function `Filter_BreakSort` returns a rearrangement of the elements that the
predicate rejects, and the flag tells whether the predicate accepted some element. -/
theorem Filter_BreakSort_spec {T : Type} (P : T → Bool) (S : List T) :
    ∃ (R : List T) (b : Bool), Filter_BreakSort P S = some (R, b) ∧
      R.Perm (S.filter (fun x => !P x)) ∧ (b = true ↔ ∃ x ∈ S, P x = true) := by
  obtain ⟨Arr2, rem2, hloop, hperm, hrem, hlo, hhi⟩ :=
    Filter_BreakSort_Loop_spec P S S.length S.length S (List.Perm.refl _) (Nat.le_refl _)
      (Nat.le_refl _) (fun m x h1 h2 _ => absurd h1 (by omega))
      (fun m x h1 hx => absurd (getElem?_some_lt hx) (by omega))
  have hlen : Arr2.length = S.length := hperm.length_eq
  have hfilter : Arr2.filter (fun x => !P x) = Arr2.take rem2 := by
    conv_lhs => rw [← List.take_append_drop rem2 Arr2]
    rw [List.filter_append]
    have h1 : (Arr2.take rem2).filter (fun x => !P x) = Arr2.take rem2 := by
      rw [List.filter_eq_self]
      intro x hx
      obtain ⟨m, hm⟩ := List.mem_iff_getElem?.1 hx
      have hmr : m < rem2 := by
        by_contra hcon
        rw [List.getElem?_take] at hm
        simp [hcon] at hm
      rw [List.getElem?_take_of_lt hmr] at hm
      simp [hlo m x hmr hm]
    have h2 : (Arr2.drop rem2).filter (fun x => !P x) = [] := by
      rw [List.filter_eq_nil_iff]
      intro x hx
      obtain ⟨m, hm⟩ := List.mem_iff_getElem?.1 hx
      rw [List.getElem?_drop] at hm
      simp [hhi (rem2 + m) x (by omega) hm]
    rw [h1, h2, List.append_nil]
  have htake : (Arr2.take rem2).Perm (S.filter (fun x => !P x)) := by
    rw [← hfilter]
    exact hperm.filter _
  have hex : rem2 < Arr2.length ↔ ∃ x ∈ S, P x = true := by
    constructor
    · intro hlt
      exact ⟨Arr2[rem2], hperm.mem_iff.1 (List.getElem_mem _),
        hhi rem2 _ (Nat.le_refl _) (List.getElem?_eq_getElem hlt)⟩
    · rintro ⟨x, hx, hpx⟩
      obtain ⟨m, hm⟩ := List.mem_iff_getElem?.1 (hperm.mem_iff.2 hx)
      have hml := getElem?_some_lt hm
      by_contra hcon
      have := hlo m x (by omega) hm
      rw [hpx] at this
      exact absurd this (by decide)
  unfold Filter_BreakSort
  simp only [Option.bind_eq_bind, Num, hloop, Option.some_bind]
  by_cases hlt : rem2 < Arr2.length
  · have hlt2 : (rem2 : Int) < (Arr2.length : Int) := by omega
    have := RemoveAt_tail Arr2 rem2 hrem
    unfold Num at this
    rw [if_pos hlt2, this]
    exact ⟨_, true, rfl, htake, by simpa using hex.1 hlt⟩
  · have hge : ¬ ((rem2 : Int) < (Arr2.length : Int)) := by omega
    rw [if_neg hge]
    refine ⟨Arr2, false, rfl, ?_, ?_⟩
    · have : rem2 = Arr2.length := by omega
      rw [this, List.take_length] at htake
      exact htake
    · simp only [Bool.false_eq_true, false_iff]
      exact fun h => hlt (hex.2 h)

/-- Claim C17: both compactions always return; `Filter_BreakSort` leaves a rearrangement of
the elements for which the predicate is false (each with its multiplicity), `Filter_Sorted_V2`
leaves exactly those elements in their original order, and each returns true exactly when
some element of the original array satisfied the predicate. -/
theorem C17_Filter_removes_exactly_the_matching {T : Type} (Predicate : T → Bool)
    (S : List T) :
    (∃ (R : List T) (b : Bool), Filter_BreakSort Predicate S = some (R, b) ∧
      R.Perm (S.filter (fun x => !Predicate x)) ∧
      (b = true ↔ ∃ x ∈ S, Predicate x = true)) ∧
    (∃ (R : List T) (b : Bool), Filter_Sorted_V2 Predicate S = some (R, b) ∧
      R = S.filter (fun x => !Predicate x) ∧
      (b = true ↔ ∃ x ∈ S, Predicate x = true)) :=
  ⟨Filter_BreakSort_spec Predicate S, Filter_Sorted_V2_spec Predicate S⟩

theorem Num_sub_index {T : Type} (A : List T) (i : Nat) (hi : i < A.length) :
    Num A - (i : Int) - 1 = ((A.length - 1 - i : Nat) : Int) ∧
    Num A - (i : Int) = ((A.length - 1 - i : Nat) : Int) + 1 := by
  unfold Num
  omega

theorem mirror_index_lt {len i k : Nat} (hi : i < len) (hk : len - 1 - i < k) :
    len ≤ k + i := by
  omega

theorem mirror_index_ne {len i k : Nat} (hi : i < len) (hk : len ≤ k + (i + 1))
    (hne : k ≠ len - 1 - i) : len ≤ k + i := by
  omega

/-- The loop of `GetValidBounds` started at index `i` with `n` indices left: it returns, and
the pair it returns is either none/none with no valid element at all, or the first valid
index and one past the last valid index. -/
theorem GetValidBounds_Loop_spec {T : Type} (P : T → Bool) (A : List T) :
    ∀ (n i : Nat) (Out : BoundIdx), i + n = A.length →
      ((Out.X = INDEX_NONE ∧ ∀ (k : Nat) (x : T), k < i → A[k]? = some x → P x = false) ∨
        (∃ f : Nat, Out.X = (f : Int) ∧ (∃ x, A[f]? = some x ∧ P x = true) ∧
          ∀ (k : Nat) (x : T), k < f → A[k]? = some x → P x = false)) →
      ((Out.Y = INDEX_NONE ∧
          ∀ (k : Nat) (x : T), A.length ≤ k + i → A[k]? = some x → P x = false) ∨
        (∃ l : Nat, Out.Y = (l : Int) + 1 ∧ (∃ y, A[l]? = some y ∧ P y = true) ∧
          ∀ (k : Nat) (x : T), l < k → A[k]? = some x → P x = false)) →
      (Out.X = INDEX_NONE ∨ Out.Y = INDEX_NONE) →
      ∃ Res : BoundIdx, GetValidBounds_Loop P A n i Out = some Res ∧
        ((Res = ⟨INDEX_NONE, INDEX_NONE⟩ ∧ ∀ (k : Nat) (x : T), A[k]? = some x → P x = false) ∨
         (∃ f l : Nat, Res = ⟨(f : Int), (l : Int) + 1⟩ ∧ f ≤ l ∧ l < A.length ∧
            (∃ x, A[f]? = some x ∧ P x = true) ∧ (∃ y, A[l]? = some y ∧ P y = true) ∧
            (∀ (k : Nat) (x : T), k < f → A[k]? = some x → P x = false) ∧
            (∀ (k : Nat) (x : T), l < k → A[k]? = some x → P x = false))) := by
  have hnat : ∀ f : Nat, (f : Int) ≠ INDEX_NONE := by
    intro f
    unfold INDEX_NONE
    omega
  have hnat1 : ∀ l : Nat, (l : Int) + 1 ≠ INDEX_NONE := by
    intro l
    unfold INDEX_NONE
    omega
  have hfinal : ∀ (f l : Nat), (∃ x, A[f]? = some x ∧ P x = true) →
      (∃ y, A[l]? = some y ∧ P y = true) →
      (∀ (k : Nat) (x : T), l < k → A[k]? = some x → P x = false) → f ≤ l ∧ l < A.length := by
    intro f l ⟨x, hx, hpx⟩ ⟨y, hy, _⟩ hmax
    refine ⟨?_, getElem?_some_lt hy⟩
    by_contra hcon
    have := hmax f x (by omega) hx
    rw [hpx] at this
    exact absurd this (by decide)
  intro n
  induction n with
  | zero =>
    intro i Out hi hX hY hnb
    refine ⟨Out, rfl, ?_⟩
    have hall : ∀ (k : Nat) (x : T), A[k]? = some x → P x = false := by
      intro k x hk
      have hklen := getElem?_some_lt hk
      rcases hnb with hx0 | hy0
      · rcases hX with ⟨_, hXn⟩ | ⟨f, hf, _⟩
        · exact hXn k x (by omega) hk
        · exact absurd (hf ▸ hx0) (hnat f)
      · rcases hY with ⟨_, hYn⟩ | ⟨l, hl, _⟩
        · exact hYn k x (by omega) hk
        · exact absurd (hl ▸ hy0) (hnat1 l)
    left
    refine ⟨?_, hall⟩
    have hx0 : Out.X = INDEX_NONE := by
      rcases hX with ⟨h0, _⟩ | ⟨f, _, ⟨x, hx, hpx⟩, _⟩
      · exact h0
      · rw [hall f x hx] at hpx
        exact absurd hpx (by decide)
    have hy0 : Out.Y = INDEX_NONE := by
      rcases hY with ⟨h0, _⟩ | ⟨l, _, ⟨y, hy, hpy⟩, _⟩
      · exact h0
      · rw [hall l y hy] at hpy
        exact absurd hpy (by decide)
    cases Out
    simp only at hx0 hy0
    rw [hx0, hy0]
  | succ n ih =>
    intro i Out hi hX hY hnb
    have hilen : i < A.length := by omega
    have hm : Num A - (i : Int) - 1 = ((A.length - 1 - i : Nat) : Int) :=
      (Num_sub_index A i hilen).1
    have hmlen : A.length - 1 - i < A.length := by omega
    -- the two reads of this round
    have hga : getAt A (i : Int) = some A[i] := by
      rw [getAt_natCast, List.getElem?_eq_getElem hilen]
    have hgb : getAt A (Num A - (i : Int) - 1) = some A[A.length - 1 - i] := by
      rw [hm, getAt_natCast, List.getElem?_eq_getElem hmlen]
    -- the new X with its invariant
    have hXstep : ∃ X : Int,
        (if Out.X = INDEX_NONE then
          (getAt A (i : Int)).map (fun a => if P a then (i : Int) else Out.X)
        else some Out.X) = some X ∧
        ((X = INDEX_NONE ∧ ∀ (k : Nat) (x : T), k < i + 1 → A[k]? = some x → P x = false) ∨
          (∃ f : Nat, X = (f : Int) ∧ (∃ x, A[f]? = some x ∧ P x = true) ∧
            ∀ (k : Nat) (x : T), k < f → A[k]? = some x → P x = false)) := by
      rcases hX with ⟨hx0, hXn⟩ | ⟨f, hf, hfx, hfmin⟩
      · rw [if_pos hx0, hga]
        by_cases hpa : P A[i] = true
        · refine ⟨(i : Int), by simp [hpa], Or.inr ⟨i, rfl, ?_, hXn⟩⟩
          exact ⟨A[i], List.getElem?_eq_getElem hilen, hpa⟩
        · refine ⟨INDEX_NONE, by simp [hpa, hx0], Or.inl ⟨rfl, ?_⟩⟩
          intro k x hk hkx
          rcases Nat.lt_succ_iff_lt_or_eq.1 hk with hlt | heq
          · exact hXn k x hlt hkx
          · subst heq
            rw [List.getElem?_eq_getElem hilen] at hkx
            cases hkx
            simpa using hpa
      · have hne : Out.X ≠ INDEX_NONE := hf ▸ hnat f
        exact ⟨Out.X, by rw [if_neg hne], Or.inr ⟨f, hf, hfx, hfmin⟩⟩
    -- the new Y with its invariant
    have hYstep : ∃ Y : Int,
        (if Out.Y = INDEX_NONE then
          (getAt A (Num A - (i : Int) - 1)).map
            (fun a => if P a then Num A - (i : Int) else Out.Y)
        else some Out.Y) = some Y ∧
        ((Y = INDEX_NONE ∧
            ∀ (k : Nat) (x : T), A.length ≤ k + (i + 1) → A[k]? = some x → P x = false) ∨
          (∃ l : Nat, Y = (l : Int) + 1 ∧ (∃ y, A[l]? = some y ∧ P y = true) ∧
            ∀ (k : Nat) (x : T), l < k → A[k]? = some x → P x = false)) := by
      rcases hY with ⟨hy0, hYn⟩ | ⟨l, hl, hly, hlmax⟩
      · rw [if_pos hy0, hgb]
        by_cases hpb : P A[A.length - 1 - i] = true
        · refine ⟨Num A - (i : Int), by simp [hpb],
            Or.inr ⟨A.length - 1 - i, ?_, ?_, ?_⟩⟩
          · exact (Num_sub_index A i hilen).2
          · exact ⟨_, List.getElem?_eq_getElem hmlen, hpb⟩
          · intro k x hk hkx
            exact hYn k x (mirror_index_lt hilen hk) hkx
        · refine ⟨INDEX_NONE, by simp [hpb, hy0], Or.inl ⟨rfl, ?_⟩⟩
          intro k x hk hkx
          by_cases hkm : k = A.length - 1 - i
          · subst hkm
            rw [List.getElem?_eq_getElem hmlen] at hkx
            cases hkx
            simpa using hpb
          · exact hYn k x (mirror_index_ne hilen hk hkm) hkx
      · have hne : Out.Y ≠ INDEX_NONE := hl ▸ hnat1 l
        exact ⟨Out.Y, by rw [if_neg hne], Or.inr ⟨l, hl, hly, hlmax⟩⟩
    obtain ⟨X, hXdef, hX2⟩ := hXstep
    obtain ⟨Y, hYdef, hY2⟩ := hYstep
    simp only [GetValidBounds_Loop, Option.bind_eq_bind, hXdef, hYdef, Option.some_bind]
    by_cases hboth : Y ≠ INDEX_NONE ∧ X ≠ INDEX_NONE
    · rw [if_pos hboth]
      refine ⟨⟨X, Y⟩, rfl, Or.inr ?_⟩
      rcases hX2 with ⟨hx0, _⟩ | ⟨f, hf, hfx, hfmin⟩
      · exact absurd hx0 hboth.2
      · rcases hY2 with ⟨hy0, _⟩ | ⟨l, hl, hly, hlmax⟩
        · exact absurd hy0 hboth.1
        · obtain ⟨h1, h2⟩ := hfinal f l hfx hly hlmax
          exact ⟨f, l, by rw [hf, hl], h1, h2, hfx, hly, hfmin, hlmax⟩
    · rw [if_neg hboth]
      apply ih (i + 1) ⟨X, Y⟩ (by omega) hX2 hY2
      by_cases hx0 : X = INDEX_NONE
      · exact Or.inl hx0
      · right
        by_contra hy0
        exact hboth ⟨hy0, hx0⟩

/-- Claim C18 (amended): `GetValidBounds` always returns; if some element is valid the pair is
`(first, last + 1)` where `first` is the smallest and `last` the largest index of a valid
element (so `first ≤ last < |A|` and the second component is one past `last`); if no element
is valid the pair is `(INDEX_NONE, INDEX_NONE)`. -/
theorem C18_GetValidBounds_first_and_past_last {T : Type} (Predicate : T → Bool)
    (A : List T) :
    ((∃ x ∈ A, Predicate x = true) →
      ∃ first last : Nat,
        GetValidBounds Predicate A = some ⟨(first : Int), (last : Int) + 1⟩ ∧
        first ≤ last ∧ last < A.length ∧
        (∃ x, A[first]? = some x ∧ Predicate x = true) ∧
        (∃ y, A[last]? = some y ∧ Predicate y = true) ∧
        (∀ (k : Nat) (x : T), k < first → A[k]? = some x → Predicate x = false) ∧
        (∀ (k : Nat) (x : T), last < k → A[k]? = some x → Predicate x = false)) ∧
    ((¬ ∃ x ∈ A, Predicate x = true) →
      GetValidBounds Predicate A = some ⟨INDEX_NONE, INDEX_NONE⟩) := by
  obtain ⟨Res, hres, hfin⟩ := GetValidBounds_Loop_spec Predicate A A.length 0
    ⟨INDEX_NONE, INDEX_NONE⟩ (by omega)
    (Or.inl ⟨rfl, fun k x hk _ => absurd hk (Nat.not_lt_zero k)⟩)
    (Or.inl ⟨rfl, fun k x hk hkx => absurd (getElem?_some_lt hkx) (by omega)⟩)
    (Or.inl rfl)
  unfold GetValidBounds
  constructor
  · rintro ⟨x, hx, hpx⟩
    rcases hfin with ⟨_, hall⟩ | ⟨f, l, hR, h1, h2, h3, h4, h5, h6⟩
    · obtain ⟨k, hk⟩ := List.mem_iff_getElem?.1 hx
      rw [hall k x hk] at hpx
      exact absurd hpx (by decide)
    · exact ⟨f, l, by rw [hres, hR], h1, h2, h3, h4, h5, h6⟩
  · intro hno
    rcases hfin with ⟨hR, _⟩ | ⟨f, l, _, _, _, ⟨x, hx, hpx⟩, _⟩
    · rw [hres, hR]
    · exact absurd ⟨x, List.mem_iff_getElem?.2 ⟨f, hx⟩, hpx⟩ hno

/-- Witness for C18 (amended): the even elements of `[1,2,3,4,5]` sit at indices `1` and
`3`. -/
theorem C18_GetValidBounds_first_and_past_last_witness :
    (∃ x ∈ [1, 2, 3, 4, 5], (fun n : Nat => decide (n % 2 = 0)) x = true) ∧
    ∃ first last : Nat,
      GetValidBounds (fun n : Nat => decide (n % 2 = 0)) [1, 2, 3, 4, 5]
        = some ⟨(first : Int), (last : Int) + 1⟩ ∧
      first ≤ last ∧ last < [1, 2, 3, 4, 5].length ∧
      (∃ x, [1, 2, 3, 4, 5][first]? = some x ∧ (fun n : Nat => decide (n % 2 = 0)) x = true) ∧
      (∃ y, [1, 2, 3, 4, 5][last]? = some y ∧ (fun n : Nat => decide (n % 2 = 0)) y = true) ∧
      (∀ (k : Nat) (x : Nat), k < first → [1, 2, 3, 4, 5][k]? = some x →
        (fun n : Nat => decide (n % 2 = 0)) x = false) ∧
      (∀ (k : Nat) (x : Nat), last < k → [1, 2, 3, 4, 5][k]? = some x →
        (fun n : Nat => decide (n % 2 = 0)) x = false) :=
  ⟨⟨2, by decide, by decide⟩,
    (C18_GetValidBounds_first_and_past_last (fun n : Nat => decide (n % 2 = 0))
      [1, 2, 3, 4, 5]).1 ⟨2, by decide, by decide⟩⟩

/-- Counterexample to C18 as stated: for the one-element array `[2]` with the element valid
the pair is `(0, 1)`, and `1` is not an index of the array; for `[1,2,3,4,5]` with the even
elements valid the pair is `(1, 4)` and the element at index `4` is not valid. -/
theorem C18_GetValidBounds_last_out_of_range_counterexample :
    GetValidBounds (fun n : Nat => decide (n % 2 = 0)) [2] = some ⟨0, 1⟩ ∧
    IsValidIndex [2] 1 = false ∧
    GetValidBounds (fun n : Nat => decide (n % 2 = 0)) [1, 2, 3, 4, 5] = some ⟨1, 4⟩ ∧
    getAt [1, 2, 3, 4, 5] 4 = some 5 ∧ decide (5 % 2 = 0) = false := by
  decide

/-- Claim C19 (defect in the binary helper): for `A = [3,7]`, `B = [3,5,7]` (hash = value) with
the bounds that `GetBoundAofB_P` returns, the linear helper drops both elements and returns
`Rem = (0, 2)`, the binary helper keeps `7` and returns `Rem = (1, 1)`. -/
theorem C19_Subtract_strategies_differ :
    IsSorted natLess [3, 7] = true ∧ IsSorted natLess [3, 5, 7] = true ∧
    GetBoundAofB_P natLess [3, 7] [3, 5, 7] = (⟨0, 1⟩, ⟨0, 2⟩) ∧
    IsValidBound ⟨0, 1⟩ (Num [3, 7]) = true ∧ IsValidBound ⟨0, 2⟩ (Num [3, 5, 7]) = true ∧
    ArrayMinusArray_Linear_SortedPredicate_Check natLess natEq [3, 7] [3, 5, 7] ⟨0, 1⟩ ⟨0, 2⟩
      = some ([3, 7], ⟨0, 2⟩) ∧
    ArrayMinusArray_Binary_SortedPredicate_Check natLess natEq [3, 7] [3, 5, 7] ⟨0, 1⟩ ⟨0, 2⟩
      = some ([7, 7], ⟨1, 1⟩) := by
  decide

/-- Claim C20 (defect in `GetBoundAofB_P`): for `A = [1,3,5]`, `B = [3,9]` (hash = value) the
element `3` of `B` is in `A`, and both bounds come back as none: the backward loop only visits
`j > i` and falls through when the first hit is the only one. With two hits
(`A = [1,3,5]`, `B = [3,5,9]`) the bounds are `BoundA = (1,2)`, `BoundB = (0,1)`. -/
theorem C20_GetBoundAofB_P_none_on_single_overlap :
    IsSorted natLess [1, 3, 5] = true ∧ IsSorted natLess [3, 9] = true ∧
    (3 ∈ [1, 3, 5] ∧ 3 ∈ [3, 9] ∧ natLess 3 3 = false) ∧
    GetBoundAofB_P natLess [1, 3, 5] [3, 9]
      = (⟨INDEX_NONE, INDEX_NONE⟩, ⟨INDEX_NONE, INDEX_NONE⟩) ∧
    GetBoundAofB_P natLess [1, 3, 5] [3, 5, 9] = (⟨1, 2⟩, ⟨0, 1⟩) := by
  decide

/-- Claim C21 (defect on the general path of `Merge_SortedPredicate`): `A = [1,5]` and
`B = [2,3]` (hash = value) are sorted and duplicate-free, `|B| = 2`, neither lies entirely
before the other, and they share no key. `GetBoundAofB_P` returns the none bounds, so the
general path calls `A.Insert(B, BoundA.Y)` with `BoundA.Y = INDEX_NONE`, which is not an
insertion index: the call fails its range check, in both overloads, for either value of
`bOverride` and whatever the raw byte move does. The same happens when exactly one key is
shared (`A = [1,3,5]`, `B = [3,9]`). -/
theorem C21_Merge_general_path_inserts_at_INDEX_NONE
    (rawMove : List Nat → Int → Int → Int → List Nat) (bOverride : Bool) :
    IsSorted natLess [1, 5] = true ∧ IsSorted natLess [2, 3] = true ∧
    ContainsDuplicates_Sorted natEq [1, 5] = false ∧
    ContainsDuplicates_Sorted natEq [2, 3] = false ∧
    natLess 5 2 = false ∧ natLess 3 1 = false ∧
    GetBoundAofB_P natLess [1, 5] [2, 3]
      = (⟨INDEX_NONE, INDEX_NONE⟩, ⟨INDEX_NONE, INDEX_NONE⟩) ∧
    InsertArray [1, 5] [2, 3] INDEX_NONE = none ∧
    Merge_SortedPredicate rawMove natLess natEq [1, 5] [2, 3] bOverride = none ∧
    Merge_SortedPredicate_Move natLess natEq [1, 5] [2, 3] bOverride = none ∧
    GetBoundAofB_P natLess [1, 3, 5] [3, 9]
      = (⟨INDEX_NONE, INDEX_NONE⟩, ⟨INDEX_NONE, INDEX_NONE⟩) ∧
    Merge_SortedPredicate rawMove natLess natEq [1, 3, 5] [3, 9] bOverride = none ∧
    Merge_SortedPredicate_Move natLess natEq [1, 3, 5] [3, 9] bOverride = none := by
  refine ⟨by decide, by decide, by decide, by decide, by decide, by decide, by decide,
    by decide, ?_, ?_, by decide, ?_, ?_⟩ <;> cases bOverride <;> rfl

/-- Claim C22 (the two overloads of `Merge_SortedPredicate` disagree on the general path): for
the sorted, duplicate-free arrays `A = [3,7]` and `B = [3,7,9]` (hash = value) the overload
taking `B` by const reference leaves `[3,3,7,7]`, whatever the raw byte move does, and the
overload taking `B` as a temporary leaves `[3,7,9,7]`, for either value of `bOverride`. For the
input named in the claim, `A = [1,3,5,7]` and `B = [3,7,9]`, the const-reference overload
moves one byte into a slot that the next assignment overwrites; with the buffer left as it
is by that move it ends with `[1,5,3,3,7,7]`, the other overload with `[1,3,5,7,9,7]`. -/
theorem C22_Merge_overloads_disagree
    (rawMove : List Nat → Int → Int → Int → List Nat) (bOverride : Bool) :
    IsSorted natLess [3, 7] = true ∧ IsSorted natLess [3, 7, 9] = true ∧
    ContainsDuplicates_Sorted natEq [3, 7] = false ∧
    ContainsDuplicates_Sorted natEq [3, 7, 9] = false ∧
    Merge_SortedPredicate rawMove natLess natEq [3, 7] [3, 7, 9] bOverride
      = some [3, 3, 7, 7] ∧
    Merge_SortedPredicate_Move natLess natEq [3, 7] [3, 7, 9] bOverride
      = some [3, 7, 9, 7] ∧
    Merge_SortedPredicate (fun A _ _ _ => A) natLess natEq [1, 3, 5, 7] [3, 7, 9] bOverride
      = some [1, 5, 3, 3, 7, 7] ∧
    Merge_SortedPredicate_Move natLess natEq [1, 3, 5, 7] [3, 7, 9] bOverride
      = some [1, 3, 5, 7, 9, 7] := by
  refine ⟨by decide, by decide, by decide, by decide, ?_, ?_, ?_, ?_⟩ <;>
    cases bOverride <;> rfl

end SenseSystem
